import Mathlib

/-!
# fitsort: naming and placing FIT activity files

A shallow embedding of `cmd/fitsort/main.go`.  Go strings are lists of
characters inside the model and `String` at the surface; signed 64-bit
arithmetic is `Int` with an explicit wrap.
-/

namespace Fitsort

/-! ## Decimal rendering (Go: `time.fmtInt`, `time.fmtFrac`, `time.appendInt`) -/

/-- Go `byte(v%10) + '0'`: the character of the last decimal digit of `v`. -/
def digitChar (v : Nat) : Char := Char.ofNat (v % 10 + 48)

/-- The loop `for v > 0 { w--; buf[w] = byte(v%10) + '0'; v /= 10 }`,
writing in front of `acc`; `fuel` bounds the number of iterations. -/
def fmtIntLoop : Nat → Nat → List Char → List Char
  | 0, _, acc => acc
  | fuel + 1, v, acc =>
    if v = 0 then acc else fmtIntLoop fuel (v / 10) (digitChar v :: acc)

/-- Go `fmtInt`: decimal form of `v`, `"0"` for zero. -/
def fmtInt (v : Nat) : List Char :=
  if v = 0 then ['0'] else fmtIntLoop v v []

/-- Go `fmtFrac` loop: consumes `prec` digits of `v` from the right, keeping
them once a non-zero digit was seen.  Returns printed digits, the flag and
the remaining value. -/
def fmtFracLoop : Nat → Nat → Bool → List Char → List Char × Bool × Nat
  | 0, v, pr, acc => (acc, pr, v)
  | prec + 1, v, pr, acc =>
    let digit := v % 10
    let pr1 := pr || decide (digit ≠ 0)
    fmtFracLoop prec (v / 10) pr1 (if pr1 then digitChar v :: acc else acc)

/-- Go `fmtFrac`: the fraction of `v / 10^prec` without trailing zeros (with
its leading point, empty when the fraction is zero) and `v / 10^prec`. -/
def fmtFrac (v prec : Nat) : List Char × Nat :=
  let r := fmtFracLoop prec v false []
  (if r.2.1 then '.' :: r.1 else r.1, r.2.2)

/-- Go `appendInt(b, x, width)`: sign, then the decimal digits of `|x|`
padded with leading zeros to `width`. -/
def appendInt (x : Int) (width : Nat) : List Char :=
  let ds := fmtInt x.natAbs
  let body := List.replicate (width - ds.length) '0' ++ ds
  if x < 0 then '-' :: body else body

/-- Go `strconv.Itoa` (the `%d` verb). -/
def itoa (x : Int) : List Char := appendInt x 0

/-! ## `time.Duration` -/

/-- Wrap an integer into the signed 64-bit range (two's complement). -/
def wrap64 (x : Int) : Int := (x + 2 ^ 63) % 2 ^ 64 - 2 ^ 63

/-- Reinterpret a signed 64-bit value as `uint64`. -/
def toUint64 (x : Int) : Nat := (x % 2 ^ 64).toNat

def maxDuration : Int := 2 ^ 63 - 1
def minDuration : Int := -(2 ^ 63)

def Nanosecond : Int := 1
def Microsecond : Int := 1000 * Nanosecond
def Millisecond : Int := 1000 * Microsecond
def Second : Int := 1000 * Millisecond
def Minute : Int := 60 * Second
def Hour : Int := 60 * Minute

/-- Go's `%` on signed integers: the remainder has the sign of the dividend. -/
def goRem (a b : Int) : Int := Int.tmod a b

/-- Go's `/` on signed integers: truncation toward zero. -/
def goDiv (a b : Int) : Int := Int.tdiv a b

/-- Go `lessThanHalf(x, y)`: `uint64(x)+uint64(x) < uint64(y)`. -/
def lessThanHalf (x y : Int) : Bool :=
  decide ((toUint64 x + toUint64 x) % 2 ^ 64 < toUint64 y)

/-- Go `Duration.Round(m)`: nearest multiple of `m`, halfway values away
from zero, saturating on overflow. -/
def Duration.Round (d m : Int) : Int :=
  if m ≤ 0 then d
  else
    let r := goRem d m
    if d < 0 then
      let r := -r
      if lessThanHalf r m then wrap64 (d + r)
      else
        let d1 := wrap64 (d - m + r)
        if d1 < d then d1 else minDuration
    else
      if lessThanHalf r m then wrap64 (d - r)
      else
        let d1 := wrap64 (d + m - r)
        if d1 > d then d1 else maxDuration

/-- Go `Duration.format` for `u ≥ 1s`: seconds with fraction, then minutes
and hours when non-zero. -/
def formatLarge (u : Nat) : List Char :=
  let fr := fmtFrac u 9
  let secs := fr.2
  let s := fmtInt (secs % 60) ++ fr.1 ++ ['s']
  let mins := secs / 60
  if mins > 0 then
    let s := fmtInt (mins % 60) ++ 'm' :: s
    let hours := mins / 60
    if hours > 0 then fmtInt hours ++ 'h' :: s else s
  else s

/-- Go `Duration.format` for `u < 1s`: smaller units. -/
def formatSmall (u : Nat) : List Char :=
  if u = 0 then ['0', 's']
  else if u < 1000 then
    let fr := fmtFrac u 0
    fmtInt fr.2 ++ fr.1 ++ ['n', 's']
  else if u < 1000000 then
    let fr := fmtFrac u 3
    fmtInt fr.2 ++ fr.1 ++ ['µ', 's']
  else
    let fr := fmtFrac u 6
    fmtInt fr.2 ++ fr.1 ++ ['m', 's']

/-- Go `Duration.String`. -/
def Duration.String (d : Int) : List Char :=
  let neg := decide (d < 0)
  let u := if neg then toUint64 (-d) else toUint64 d
  let body := if u < 1000000000 then formatSmall u else formatLarge u
  if neg then '-' :: body else body

/-! ## `time.Time`, `time.Location` and formatting -/

/-- A `time.Location`: the offset in seconds east of UTC in use at a given
Unix time (Go: `Location.lookup`). -/
structure Location where
  lookup : Int → Int

/-- Go `time.UTC`. -/
def UTC : Location := ⟨fun _ => 0⟩

/-- Go `time.FixedZone(_, offset)`. -/
def FixedZone (offset : Int) : Location := ⟨fun _ => offset⟩

/-- A `time.Time` at second precision: Unix seconds and the location used
for presentation.  The layouts used by the program print no sub-second
field. -/
structure Time where
  sec : Int
  loc : Location

/-- Go `Time.In(loc)`: same instant, other location (`t.Local()` is
`t.In(time.Local)`). -/
def Time.In (t : Time) (loc : Location) : Time := { t with loc := loc }

/-- Go `t.locabs()`: zone offset and seconds shifted to the zone. -/
def Time.offset (t : Time) : Int := t.loc.lookup t.sec

def Time.abs (t : Time) : Int := t.sec + t.offset

/-- Proleptic Gregorian date `(year, month, day)` of the day `z` days after
1970-01-01 (Go: `absDate`).  Days are counted from March 1 of year 0; 400-,
100-, 4- and 1-year cycles are cut off in turn, the last of the four
100-year and 1-year cycles being one day longer (Go: `n -= n >> 2`). -/
def civilFromDays (z : Int) : Int × Int × Int :=
  let z := z + 719468
  let era := z / 146097
  let doe := z % 146097
  let n100 := doe / 36524 - doe / 36524 / 4
  let d2 := doe - 36524 * n100
  let n4 := d2 / 1461
  let d3 := d2 % 1461
  let n1 := d3 / 365 - d3 / 365 / 4
  let doy := d3 - 365 * n1
  let mp := (5 * doy + 2) / 153
  let d := doy - (153 * mp + 2) / 5 + 1
  let m := if mp < 10 then mp + 3 else mp - 9
  (400 * era + 100 * n100 + 4 * n4 + n1 + (if m ≤ 2 then 1 else 0), m, d)

/-- Go `Time.Date()`. -/
def Time.Date (t : Time) : Int × Int × Int := civilFromDays (t.abs / 86400)

/-- Go `Time.Year()`. -/
def Time.Year (t : Time) : Int := t.Date.1

/-- Go `Time.Clock()`: `(hour, min, sec)`. -/
def Time.Clock (t : Time) : Int × Int × Int :=
  let s := t.abs % 86400
  (s / 3600, s % 3600 / 60, s % 60)

/-- The zone part of layout `Z07:00`: `Z` when the offset is zero, else
sign, hours and minutes of the offset (its seconds are dropped). -/
def formatZone (offset : Int) : List Char :=
  if offset = 0 then ['Z']
  else
    let zone := goDiv offset 60
    if zone < 0 then
      '-' :: (appendInt (goDiv (-zone) 60) 2 ++ ':' :: appendInt (goRem (-zone) 60) 2)
    else
      '+' :: (appendInt (goDiv zone 60) 2 ++ ':' :: appendInt (goRem zone 60) 2)

/-- Go `t.Format(time.RFC3339)`, layout `2006-01-02T15:04:05Z07:00`. -/
def Time.FormatRFC3339 (t : Time) : List Char :=
  appendInt t.Date.1 4 ++ '-' :: (appendInt t.Date.2.1 2 ++ '-' :: (appendInt t.Date.2.2 2 ++
    'T' :: (appendInt t.Clock.1 2 ++ ':' :: (appendInt t.Clock.2.1 2 ++ ':' ::
      (appendInt t.Clock.2.2 2 ++ formatZone t.offset)))))

/-- Go `t.Format("2006")`: the year, at least four digits. -/
def Time.FormatYear (t : Time) : List Char := appendInt t.Year 4

/-! ## `path/filepath` (Unix) -/

/-- Split a path at every `/`. -/
def splitSep : List Char → List (List Char)
  | [] => [[]]
  | c :: cs =>
    if c = '/' then [] :: splitSep cs
    else
      match splitSep cs with
      | [] => [[c]]
      | e :: es => (c :: e) :: es

/-- Join elements with `/`. -/
def joinSep : List (List Char) → List Char
  | [] => []
  | [e] => e
  | e :: es => e ++ '/' :: joinSep es

/-- One element of the `filepath.Clean` loop.  The state is the output
elements written so far (last first) and how many of them form the leading
`../..` prefix that `..` cannot remove. -/
def cleanStep (rooted : Bool) (st : List (List Char) × Nat) (e : List Char) :
    List (List Char) × Nat :=
  if e = [] then st
  else if e = ['.'] then st
  else if e = ['.', '.'] then
    if st.1.length > st.2 then (st.1.tail, st.2)
    else if !rooted then (e :: st.1, st.2 + 1)
    else st
  else (e :: st.1, st.2)

/-- Go `filepath.Clean`: drops empty and `.` elements, resolves inner `..`,
drops `..` at the root, and turns the empty result into `.`. -/
def Clean (path : List Char) : List Char :=
  if path = [] then ['.']
  else
    let rooted := decide (path.head? = some '/')
    let out := ((splitSep path).foldl (cleanStep rooted) ([], 0)).1
    let body := joinSep out.reverse
    let r := if rooted then '/' :: body else body
    if r = [] then ['.'] else r

/-- Go `filepath.Join`: the elements from the first non-empty one on, joined
with `/` and cleaned; the empty string when all are empty. -/
def Join (elem : List (List Char)) : List Char :=
  match elem.dropWhile (fun e => decide (e = [])) with
  | [] => []
  | es => Clean (joinSep es)

/-- Go `filepath.Dir`: everything up to the last `/`, cleaned. -/
def Dir (path : List Char) : List Char :=
  Clean (path.reverse.dropWhile (fun c => decide (c ≠ '/'))).reverse

/-! ## Decoded activities and the environment -/

/-- Modelled from the spec: a sport-summary entry (the library type
`mesgdef.Sport`), carrying its `Sport` field, a `typedef.Sport` byte. -/
structure MesgSport where
  Sport : Nat

/-- Modelled from the spec: the activity message (the library type
`mesgdef.Activity`) with the fields the program reads: the session timestamp,
`TotalTimerTime`, a `uint32` count of milliseconds, and `Type`, a
`typedef.Activity` byte. -/
structure MesgActivity where
  Timestamp : Time
  TotalTimerTime : Nat
  Type_ : Nat

/-- Modelled from the spec: a decoded activity (the library type
`filedef.Activity`): the activity message and the ordered sport messages. -/
structure FileActivity where
  Activity : MesgActivity
  Sports : List MesgSport

/-- What one record group of a file gives: `dec.Decode()` fails, or the
listener holds an activity file, or a file of another kind. -/
inductive Group where
  | decodeErr (msg : String)
  | activity (a : FileActivity)
  | other

/-- How the decoder behaves on one byte stream: the result of
`CheckIntegrity`, and the record groups `dec.Next()` announces in turn. -/
structure DecoderRun where
  integrityErr : Option String
  groups : List Group

/-- The parts of the program that live outside the repository: the FIT
profile constant `typedef.ActivityManual`, the table `typedef.Sport.String`,
the process-wide `time.Local`, and the decoder's behaviour on a byte
stream. -/
structure Env where
  ActivityManual : Nat
  sportString : Nat → String
  Local : Location
  decode : List Nat → DecoderRun

/-! ## `nameActivityFile` -/

/-- `time.Duration(activity.Activity.TotalTimerTime) * time.Millisecond`; the
`uint32` field holds its value modulo `2^32`. -/
def timerDuration (activity : FileActivity) : Int :=
  wrap64 (((activity.Activity.TotalTimerTime % 2 ^ 32 : Nat) : Int) * Millisecond)

/-- The `name` of `nameActivityFile`:
`fmt.Sprintf("%s %s %s.fit", ts.Local().Format(time.RFC3339), sport, dur.Round(time.Minute))`. -/
def activityName (env : Env) (ts : Time) (sport : List Char) (dur : Int) : List Char :=
  (ts.In env.Local).FormatRFC3339 ++ ' ' :: (sport ++ ' ' ::
    (Duration.String (Duration.Round dur Minute) ++ ['.', 'f', 'i', 't']))

/-- Go `nameActivityFile`: the returned path and error. -/
def nameActivityFile (env : Env) (activity : FileActivity) : String × Option String :=
  if activity.Activity.Type_ ≠ env.ActivityManual then
    ("", some "sport type not set manually")
  else if h : activity.Sports.length ≠ 1 then
    ("", some (String.mk ("expected exactly 1 sport, got ".toList ++
      itoa activity.Sports.length)))
  else
    let sport := (env.sportString (activity.Sports.get ⟨0, by omega⟩).Sport).toList
    let ts := activity.Activity.Timestamp
    let dur := timerDuration activity
    let name := activityName env ts sport dur
    (String.mk (Join [ts.FormatYear, name]), none)

/-! ## The file system and the per-file step -/

/-- What a path names: a regular file with its bytes, or a directory. -/
inductive Node where
  | file (bytes : List Nat)
  | dir
  deriving DecidableEq

/-- The state the program acts on: the file system as a map from paths to
nodes, and the lines written to the log.  Two paths name the same file only
when they are the same string. -/
structure World where
  nodes : String → Option Node
  log : List String

/-- A Go call that returns normally with `a`, or panics. -/
inductive Outcome (α : Type) where
  | ret (a : α)
  | panic (msg : String)

/-- The file system with `path` bound to `n`. -/
def World.set (w : World) (path : String) (n : Node) : World :=
  { w with nodes := fun p => if p = path then some n else w.nodes p }

/-- Go `log.Println` / `log.Printf`: one more line in the log. -/
def World.println (w : World) (line : String) : World :=
  { w with log := w.log ++ [line] }

/-- Go `os.Create(dst)` (`O_RDWR|O_CREATE|O_TRUNC`): fails on a directory or
when the parent is not a directory, else leaves `dst` an empty file. -/
def osCreate (w : World) (dst : String) : World × Option String :=
  match w.nodes dst with
  | some Node.dir => (w, some ("open " ++ dst ++ ": is a directory"))
  | _ =>
    match w.nodes (String.mk (Dir dst.toList)) with
    | some Node.dir => (w.set dst (Node.file []), none)
    | some (Node.file _) => (w, some ("open " ++ dst ++ ": not a directory"))
    | none => (w, some ("open " ++ dst ++ ": no such file or directory"))

/-- Go `copyFile`: open `src`, create (truncate) `dst`, then `io.Copy` what
`src` holds at that moment into `dst`. -/
def copyFile (w : World) (src dst : String) : World × Option String :=
  match w.nodes src with
  | none => (w, some ("open " ++ src ++ ": no such file or directory"))
  | some _ =>
    match osCreate w dst with
    | (w1, some e) => (w1, some e)
    | (w1, none) =>
      match w1.nodes src with
      | some (Node.file bytes) => (w1.set dst (Node.file bytes), none)
      | _ => (w1, some ("read " ++ src ++ ": is a directory"))

/-- The prefixes of a path that end before a `/` (the ancestors), shortest
first, without the empty one. -/
def ancestors (path : List Char) : List (List Char) :=
  ((List.range path.length).filter
    (fun i => decide (0 < i) && decide (path.get? i = some '/'))).map (fun i => path.take i)

/-- Create the directories of `ps` in turn; stop at one that is a file. -/
def mkdirChain (w : World) : List (List Char) → World × Option String
  | [] => (w, none)
  | p :: ps =>
    match w.nodes (String.mk p) with
    | some Node.dir => mkdirChain w ps
    | some (Node.file _) => (w, some ("mkdir " ++ String.mk p ++ ": not a directory"))
    | none => mkdirChain (w.set (String.mk p) Node.dir) ps

/-- Go `os.MkdirAll(path, 0755)`: creates `path` and the missing ancestors;
fails when one of them exists as a file. -/
def MkdirAll (w : World) (path : String) : World × Option String :=
  mkdirChain w (ancestors path.toList ++ [path.toList])

/-- The loop `for dec.Next() { ... }` of `parseFitActivity` over the record
groups still to come, with the counter `i` and the variable `file`. -/
def decodeLoop (path : String) :
    List Group → Nat → Option FileActivity → Outcome (Option FileActivity × Option String)
  | [], _, none => Outcome.ret (none, some ("failed to find FIT data in '" ++ path ++ "'"))
  | [], _, some file => Outcome.ret (some file, none)
  | g :: gs, i, _ =>
    if i > 0 then Outcome.panic "not handled"
    else
      match g with
      | Group.decodeErr msg =>
        Outcome.ret (none, some ("failed to decode '" ++ path ++ "': " ++ msg))
      | Group.other => Outcome.ret (none, some ("'" ++ path ++ "' is not an activity file"))
      | Group.activity a => decodeLoop path gs (i + 1) (some a)

/-- Go `parseFitActivity`.  Reading a directory fails in the integrity
check; seeking to the start of an open regular file does not fail. -/
def parseFitActivity (env : Env) (w : World) (path : String) :
    Outcome (Option FileActivity × Option String) :=
  match w.nodes path with
  | none =>
    Outcome.ret (none, some ("failed to open '" ++ path ++ "': open " ++ path ++
      ": no such file or directory"))
  | some Node.dir =>
    Outcome.ret (none, some ("integrity check failed on '" ++ path ++ "': read " ++ path ++
      ": is a directory"))
  | some (Node.file bytes) =>
    match (env.decode bytes).integrityErr with
    | some e => Outcome.ret (none, some ("integrity check failed on '" ++ path ++ "': " ++ e))
    | none => decodeLoop path (env.decode bytes).groups 0 none

/-- The `os.FileInfo` handed to the walk function: whether the entry is a
regular file. -/
structure FileInfo where
  isRegular : Bool

/-- Go `strings.HasSuffix(path, ".fit")`. -/
def hasFitSuffix (path : String) : Bool := List.isSuffixOf ['.', 'f', 'i', 't'] path.toList

/-- The function `main` passes to `filepath.Walk`: the per-file step.
`outDir` is the cleaned output directory. -/
def walkFn (env : Env) (outDir : String) (w : World) (path : String) (info : FileInfo)
    (err : Option String) : Outcome (World × Option String) :=
  match err with
  | some e => Outcome.ret (w, some e)
  | none =>
    if !info.isRegular || !hasFitSuffix path then
      Outcome.ret (w.println ("skipping " ++ path), none)
    else
      match parseFitActivity env w path with
      | Outcome.panic msg => Outcome.panic msg
      | Outcome.ret (_, some e) => Outcome.ret (w.println ("not an activity file " ++ e), none)
      | Outcome.ret (none, none) => Outcome.panic "nil pointer dereference"
      | Outcome.ret (some activity, none) =>
        match nameActivityFile env activity with
        | (_, some e) =>
          Outcome.ret (w.println ("failed to name '" ++ path ++ "': " ++ e), none)
        | (newPath, none) =>
          let newPath := String.mk (Join [outDir.toList, newPath.toList])
          let w1 := (MkdirAll w (String.mk (Dir newPath.toList))).1
          Outcome.ret (copyFile w1 path newPath)

/-! ## Concrete inputs used in the examples -/

/-- A sport table for the examples: `1` is running, `2` is cycling. -/
def exampleSportString (n : Nat) : String :=
  if n = 1 then "running" else if n = 2 then "cycling" else "generic"

/-- An environment for the examples: the manual sentinel is `0`, the local
zone is `loc`, and the decoder gives `run` on every byte stream. -/
def exampleEnv (loc : Location) (run : DecoderRun) : Env :=
  { ActivityManual := 0, sportString := exampleSportString, Local := loc,
    decode := fun _ => run }

/-- A manual running activity decoded at UTC second `sec` lasting `ms`
milliseconds. -/
def exampleActivity (sec : Int) (ms : Nat) : FileActivity :=
  { Activity := { Timestamp := { sec := sec, loc := UTC }, TotalTimerTime := ms, Type_ := 0 },
    Sports := [{ Sport := 1 }] }

/-- An activity of type `1` (not manual) with two sport messages. -/
def exampleMultiSport : FileActivity :=
  { Activity := { Timestamp := { sec := 1685606400, loc := UTC }, TotalTimerTime := 5400000,
                  Type_ := 1 },
    Sports := [{ Sport := 1 }, { Sport := 2 }] }

/-- A local zone whose offset drops from +01:00:01 to +01:00:00 at Unix
second 1685606400. -/
def shiftedZone : Location :=
  { lookup := fun t => if t < 1685606400 then 3601 else 3600 }

/-- A manual activity with two sport messages. -/
def exampleTwoSports : FileActivity :=
  { Activity := { Timestamp := { sec := 1685606400, loc := UTC }, TotalTimerTime := 5400000,
                  Type_ := 0 },
    Sports := [{ Sport := 1 }, { Sport := 2 }] }

/-- A working directory holding `in/a.fit` with three bytes. -/
def exampleWorld : World :=
  { nodes := fun p =>
      if p = "." then some Node.dir
      else if p = "in" then some Node.dir
      else if p = "in/a.fit" then some (Node.file [1, 2, 3])
      else none,
    log := [] }

/-- The working directory of `exampleWorld` with an output directory `out`
in which `2023` is a regular file. -/
def blockedWorld : World :=
  (exampleWorld.set "out" Node.dir).set "out/2023" (Node.file [])

/-- The working directory after a first run with the default flags
(`-in=. -out=out/`) and local zone UTC: the copy of `in/a.fit` is in place
under `out/2023`. -/
def archivedWorld : World :=
  ((exampleWorld.set "out" Node.dir).set "out/2023" Node.dir).set
    "out/2023/2023-06-01T08:00:00Z running 1h30m0s.fit" (Node.file [1, 2, 3])

/-- A decoder run with a clean integrity check and one activity group. -/
def oneActivity (a : FileActivity) : DecoderRun :=
  { integrityErr := none, groups := [Group.activity a] }

/-! ## Predicates used in the proofs -/

/-- A decimal digit character. -/
def IsDigit (c : Char) : Prop := 48 ≤ c.toNat ∧ c.toNat ≤ 57

instance (c : Char) : Decidable (IsDigit c) := by
  unfold IsDigit
  infer_instance

/-- Every character of the list is a decimal digit. -/
def AllDigits (l : List Char) : Prop := ∀ c ∈ l, IsDigit c

/-- Neither a blank nor a path separator. -/
def Plain (c : Char) : Prop := c ≠ ' ' ∧ c ≠ '/'

instance (c : Char) : Decidable (Plain c) := by
  unfold Plain
  infer_instance

/-- No character of the list is a blank or a path separator. -/
def AllPlain (l : List Char) : Prop := ∀ c ∈ l, Plain c

/-- The digits of `appendInt` without the sign. -/
def appendIntBody (x : Int) (width : Nat) : List Char :=
  List.replicate (width - (fmtInt x.natAbs).length) '0' ++ fmtInt x.natAbs

/-- A path element that `filepath.Clean` keeps as it is. -/
def ProperElem (e : List Char) : Prop :=
  '/' ∉ e ∧ e ≠ [] ∧ e ≠ ['.'] ∧ e ≠ ['.', '.']

/-- The number written by a list of digit characters. -/
def decVal (l : List Char) : Nat := l.foldl (fun a c => 10 * a + (c.toNat - 48)) 0

/-- What `Duration.String` prints for `k` whole minutes. -/
def minutesString (k : Nat) : List Char :=
  if k = 0 then ['0', 's']
  else if k / 60 > 0 then fmtInt (k / 60) ++ 'h' :: (fmtInt (k % 60) ++ ['m', '0', 's'])
  else fmtInt (k % 60) ++ ['m', '0', 's']

/-! ## Arithmetic of durations -/

theorem Minute_eq : Minute = 60000000000 := by
  simp [Minute, Second, Millisecond, Microsecond, Nanosecond]

theorem Millisecond_eq : Millisecond = 1000000 := by
  simp [Millisecond, Microsecond, Nanosecond]

theorem wrap64_of_range (x : Int) (h0 : -(2 ^ 63) ≤ x) (h1 : x < 2 ^ 63) : wrap64 x = x := by
  unfold wrap64
  omega

theorem toUint64_of_nonneg (x : Int) (h0 : 0 ≤ x) (h1 : x < 2 ^ 64) :
    (toUint64 x : Int) = x := by
  unfold toUint64
  rw [Int.toNat_of_nonneg (by omega)]
  omega

theorem lessThanHalf_iff (r m : Int) (hr0 : 0 ≤ r) (hr1 : r < 2 ^ 62) (hm0 : 0 ≤ m)
    (hm1 : m < 2 ^ 62) : lessThanHalf r m = true ↔ r + r < m := by
  have h1 := toUint64_of_nonneg r hr0 (by omega)
  have h2 := toUint64_of_nonneg m hm0 (by omega)
  unfold lessThanHalf
  rw [decide_eq_true_iff]
  omega

/-- On a non-negative duration below `2^62` ns, `Round(time.Minute)` is
plain rounding to the nearest minute with halves going up. -/
theorem round_minute_of_nonneg (d : Int) (h0 : 0 ≤ d) (h1 : d < 2 ^ 62) :
    Duration.Round d Minute =
      if d % 60000000000 + d % 60000000000 < 60000000000 then d - d % 60000000000
      else d + 60000000000 - d % 60000000000 := by
  have hr : goRem d 60000000000 = d % 60000000000 := by
    unfold goRem
    exact Int.tmod_eq_emod h0 (by norm_num)
  have hlt := lessThanHalf_iff (d % 60000000000) 60000000000 (by omega) (by omega)
    (by norm_num) (by norm_num)
  unfold Duration.Round
  rw [Minute_eq]
  simp only [hr]
  rw [if_neg (by norm_num), if_neg (by omega)]
  by_cases hh : d % 60000000000 + d % 60000000000 < 60000000000
  · rw [if_pos (hlt.2 hh), if_pos hh]
    exact wrap64_of_range _ (by omega) (by omega)
  · have hf : ¬ (lessThanHalf (d % 60000000000) 60000000000 = true) := fun h => hh (hlt.1 h)
    rw [if_neg hf, if_neg hh]
    rw [wrap64_of_range _ (by omega) (by omega)]
    rw [if_pos (by omega)]

theorem timerDuration_eq (activity : FileActivity)
    (h : activity.Activity.TotalTimerTime < 2 ^ 32) :
    timerDuration activity = (activity.Activity.TotalTimerTime : Int) * 1000000 := by
  unfold timerDuration
  rw [Millisecond_eq, Nat.mod_eq_of_lt h]
  exact wrap64_of_range _ (by omega) (by omega)

/-! ## Which characters the rendered fields contain -/

theorem digitChar_toNat (v : Nat) : (digitChar v).toNat = v % 10 + 48 := by
  have h : v % 10 < 10 := Nat.mod_lt _ (by norm_num)
  unfold digitChar
  generalize v % 10 = k at h
  interval_cases k <;> rfl

theorem isDigit_digitChar (v : Nat) : IsDigit (digitChar v) := by
  have h : v % 10 < 10 := Nat.mod_lt _ (by norm_num)
  unfold IsDigit
  rw [digitChar_toNat]
  omega

theorem IsDigit.isPlain {c : Char} (h : IsDigit c) : Plain c := by
  constructor <;> (rintro rfl; revert h; decide)

theorem AllPlain.app {a b : List Char} (ha : AllPlain a) (hb : AllPlain b) :
    AllPlain (a ++ b) := by
  intro c hc
  rcases List.mem_append.1 hc with h | h
  · exact ha c h
  · exact hb c h

theorem AllPlain.cons {c : Char} {l : List Char} (hc : Plain c) (hl : AllPlain l) :
    AllPlain (c :: l) := by
  intro d hd
  rcases List.mem_cons.1 hd with h | h
  · exact h ▸ hc
  · exact hl d h

theorem AllPlain.nil : AllPlain [] := by
  intro c hc
  cases hc

theorem AllDigits.allPlain {l : List Char} (h : AllDigits l) : AllPlain l :=
  fun c hc => (h c hc).isPlain

theorem AllDigits.appendDigits {a b : List Char} (ha : AllDigits a) (hb : AllDigits b) :
    AllDigits (a ++ b) := by
  intro c hc
  rcases List.mem_append.1 hc with h | h
  · exact ha c h
  · exact hb c h

theorem allDigits_fmtIntLoop (fuel v : Nat) (acc : List Char) (h : AllDigits acc) :
    AllDigits (fmtIntLoop fuel v acc) := by
  induction fuel generalizing v acc with
  | zero => exact h
  | succ n ih =>
    unfold fmtIntLoop
    split
    · exact h
    · apply ih
      intro c hc
      rcases List.mem_cons.1 hc with h1 | h1
      · exact h1 ▸ isDigit_digitChar v
      · exact h c h1

theorem allDigits_fmtInt (v : Nat) : AllDigits (fmtInt v) := by
  unfold fmtInt
  split
  · intro c hc
    rw [List.mem_singleton] at hc
    subst hc
    decide
  · exact allDigits_fmtIntLoop _ _ _ (fun c hc => by cases hc)

theorem allDigits_replicate_zero (n : Nat) : AllDigits (List.replicate n '0') := by
  intro c hc
  rw [List.eq_of_mem_replicate hc]
  decide

theorem appendInt_eq (x : Int) (width : Nat) :
    appendInt x width = if x < 0 then '-' :: appendIntBody x width else appendIntBody x width :=
  rfl

theorem allDigits_appendIntBody (x : Int) (width : Nat) : AllDigits (appendIntBody x width) :=
  (allDigits_replicate_zero _).appendDigits (allDigits_fmtInt _)

theorem allPlain_appendInt (x : Int) (width : Nat) : AllPlain (appendInt x width) := by
  rw [appendInt_eq]
  split
  · exact AllPlain.cons (by decide) (allDigits_appendIntBody x width).allPlain
  · exact (allDigits_appendIntBody x width).allPlain

theorem allPlain_fmtFracLoop (prec v : Nat) (pr : Bool) (acc : List Char) (h : AllPlain acc) :
    AllPlain (fmtFracLoop prec v pr acc).1 := by
  induction prec generalizing v pr acc with
  | zero => exact h
  | succ n ih =>
    unfold fmtFracLoop
    apply ih
    split
    · exact AllPlain.cons (isDigit_digitChar v).isPlain h
    · exact h

theorem allPlain_fmtFrac (v prec : Nat) : AllPlain (fmtFrac v prec).1 := by
  unfold fmtFrac
  have h := allPlain_fmtFracLoop prec v false [] AllPlain.nil
  dsimp only
  split
  · exact AllPlain.cons (by decide) h
  · exact h

theorem allPlain_fmtInt (v : Nat) : AllPlain (fmtInt v) := (allDigits_fmtInt v).allPlain

theorem allPlain_formatLarge (u : Nat) : AllPlain (formatLarge u) := by
  have hs : AllPlain (fmtInt ((fmtFrac u 9).2 % 60) ++ (fmtFrac u 9).1 ++ ['s']) :=
    ((allPlain_fmtInt _).app (allPlain_fmtFrac _ _)).app
      (AllPlain.cons (by decide) AllPlain.nil)
  unfold formatLarge
  dsimp only
  split
  · have hm := (allPlain_fmtInt ((fmtFrac u 9).2 / 60 % 60)).app
      (AllPlain.cons (c := 'm') (by decide) hs)
    split
    · exact (allPlain_fmtInt _).app (AllPlain.cons (by decide) hm)
    · exact hm
  · exact hs

theorem allPlain_formatSmall (u : Nat) : AllPlain (formatSmall u) := by
  unfold formatSmall
  dsimp only
  split
  · exact AllPlain.cons (by decide) (AllPlain.cons (by decide) AllPlain.nil)
  · split
    · exact ((allPlain_fmtInt _).app (allPlain_fmtFrac _ _)).app
        (AllPlain.cons (by decide) (AllPlain.cons (by decide) AllPlain.nil))
    · split
      · exact ((allPlain_fmtInt _).app (allPlain_fmtFrac _ _)).app
          (AllPlain.cons (by decide) (AllPlain.cons (by decide) AllPlain.nil))
      · exact ((allPlain_fmtInt _).app (allPlain_fmtFrac _ _)).app
          (AllPlain.cons (by decide) (AllPlain.cons (by decide) AllPlain.nil))

theorem allPlain_durationString (d : Int) : AllPlain (Duration.String d) := by
  have hb : ∀ u, AllPlain (if u < 1000000000 then formatSmall u else formatLarge u) := by
    intro u
    split
    · exact allPlain_formatSmall u
    · exact allPlain_formatLarge u
  unfold Duration.String
  dsimp only
  split
  · exact AllPlain.cons (by decide) (hb _)
  · exact hb _

theorem allPlain_formatZone (offset : Int) : AllPlain (formatZone offset) := by
  unfold formatZone
  dsimp only
  split
  · exact AllPlain.cons (by decide) AllPlain.nil
  · split
    · exact AllPlain.cons (by decide) ((allPlain_appendInt _ _).app
        (AllPlain.cons (by decide) (allPlain_appendInt _ _)))
    · exact AllPlain.cons (by decide) ((allPlain_appendInt _ _).app
        (AllPlain.cons (by decide) (allPlain_appendInt _ _)))

theorem allPlain_formatRFC3339 (t : Time) : AllPlain t.FormatRFC3339 := by
  unfold Time.FormatRFC3339
  exact (allPlain_appendInt _ _).app (AllPlain.cons (by decide)
    ((allPlain_appendInt _ _).app (AllPlain.cons (by decide)
    ((allPlain_appendInt _ _).app (AllPlain.cons (by decide)
    ((allPlain_appendInt _ _).app (AllPlain.cons (by decide)
    ((allPlain_appendInt _ _).app (AllPlain.cons (by decide)
    ((allPlain_appendInt _ _).app (allPlain_formatZone _)))))))))))

/-! ## `filepath.Join` on a year directory and a file name -/

theorem splitSep_of_not_mem (l : List Char) (h : '/' ∉ l) : splitSep l = [l] := by
  induction l with
  | nil => rfl
  | cons c cs ih =>
    have hc : c ≠ '/' := fun e => h (e ▸ List.mem_cons_self _ _)
    have hcs : '/' ∉ cs := fun e => h (List.mem_cons_of_mem _ e)
    unfold splitSep
    rw [if_neg hc, ih hcs]

theorem splitSep_append_sep (a b : List Char) (h : '/' ∉ a) :
    splitSep (a ++ '/' :: b) = a :: splitSep b := by
  induction a with
  | nil =>
    show splitSep ('/' :: b) = [] :: splitSep b
    conv_lhs => unfold splitSep
    rw [if_pos rfl]
  | cons c cs ih =>
    have hc : c ≠ '/' := fun e => h (e ▸ List.mem_cons_self _ _)
    have hcs : '/' ∉ cs := fun e => h (List.mem_cons_of_mem _ e)
    show splitSep (c :: (cs ++ '/' :: b)) = (c :: cs) :: splitSep b
    conv_lhs => unfold splitSep
    rw [if_neg hc, ih hcs]

theorem cleanStep_proper (st : List (List Char) × Nat) (e : List Char) (h : ProperElem e) :
    cleanStep false st e = (e :: st.1, st.2) := by
  unfold cleanStep
  rw [if_neg h.2.1, if_neg h.2.2.1, if_neg h.2.2.2]

/-- Joining two proper elements is plain concatenation with a separator. -/
theorem join_two_proper (y n : List Char) (hy : ProperElem y) (hn : ProperElem n) :
    Join [y, n] = y ++ '/' :: n := by
  have hne : y ++ '/' :: n ≠ [] := by
    intro h
    exact hy.2.1 (List.append_eq_nil.1 h).1
  have hroot : (y ++ '/' :: n).head? ≠ some '/' := by
    cases y with
    | nil => exact absurd rfl hy.2.1
    | cons c cs =>
      intro h
      simp only [List.cons_append, List.head?_cons, Option.some.injEq] at h
      exact hy.1 (h ▸ List.mem_cons_self _ _)
  have hsplit : splitSep (y ++ '/' :: n) = [y, n] := by
    rw [splitSep_append_sep y n hy.1, splitSep_of_not_mem n hn.1]
  have hdrop : List.dropWhile (fun e => decide (e = [])) [y, n] = [y, n] := by
    rw [List.dropWhile_cons_of_neg]
    simpa using hy.2.1
  unfold Join
  rw [hdrop]
  show Clean (y ++ '/' :: n) = y ++ '/' :: n
  unfold Clean
  rw [if_neg hne]
  simp only [hsplit, decide_eq_false hroot, List.foldl_cons, List.foldl_nil,
    cleanStep_proper _ _ hy, cleanStep_proper _ _ hn]
  simp [joinSep, hy.2.1]

theorem fmtIntLoop_length (fuel v : Nat) (acc : List Char) :
    acc.length ≤ (fmtIntLoop fuel v acc).length := by
  induction fuel generalizing v acc with
  | zero => exact Nat.le_refl _
  | succ n ih =>
    unfold fmtIntLoop
    split
    · exact Nat.le_refl _
    · exact Nat.le_trans (Nat.le_succ _) (ih (v / 10) (digitChar v :: acc))

theorem fmtInt_ne_nil (v : Nat) : fmtInt v ≠ [] := by
  unfold fmtInt
  split
  · exact List.cons_ne_nil _ _
  · rename_i hv
    obtain ⟨k, rfl⟩ : ∃ k, v = k + 1 := ⟨v - 1, by omega⟩
    unfold fmtIntLoop
    rw [if_neg hv]
    intro h
    have := fmtIntLoop_length k ((k + 1) / 10) [digitChar (k + 1)]
    rw [h] at this
    simp at this

theorem appendIntBody_ne_nil (x : Int) (width : Nat) : appendIntBody x width ≠ [] := by
  unfold appendIntBody
  intro h
  exact fmtInt_ne_nil _ (List.append_eq_nil.1 h).2

/-- The characters of `appendInt`: digits and the minus sign. -/
theorem mem_appendInt {x : Int} {width : Nat} {c : Char} (h : c ∈ appendInt x width) :
    c = '-' ∨ IsDigit c := by
  rw [appendInt_eq] at h
  split at h
  · rcases List.mem_cons.1 h with h1 | h1
    · exact Or.inl h1
    · exact Or.inr (allDigits_appendIntBody x width c h1)
  · exact Or.inr (allDigits_appendIntBody x width c h)

theorem appendInt_ne_nil (x : Int) (width : Nat) : appendInt x width ≠ [] := by
  rw [appendInt_eq]
  split
  · exact List.cons_ne_nil _ _
  · exact appendIntBody_ne_nil x width

theorem properElem_appendInt (x : Int) (width : Nat) : ProperElem (appendInt x width) := by
  have hdot : '.' ∉ appendInt x width := by
    intro h
    rcases mem_appendInt h with h1 | h1
    · exact absurd h1 (by decide)
    · exact absurd h1 (by decide)
  refine ⟨fun h => (allPlain_appendInt x width _ h).2 rfl, appendInt_ne_nil x width, ?_, ?_⟩
  · intro h
    exact hdot (h ▸ List.mem_cons_self _ _)
  · intro h
    exact hdot (h ▸ List.mem_cons_self _ _)

theorem properElem_activityName (env : Env) (ts : Time) (sport : List Char) (dur : Int)
    (hs : '/' ∉ sport) : ProperElem (activityName env ts sport dur) := by
  have hblank : ' ' ∈ activityName env ts sport dur := by
    unfold activityName
    exact List.mem_append_right _ (List.mem_cons_self _ _)
  refine ⟨?_, ?_, ?_, ?_⟩
  · unfold activityName
    intro h
    rcases List.mem_append.1 h with h1 | h1
    · exact (allPlain_formatRFC3339 _ _ h1).2 rfl
    · rcases List.mem_cons.1 h1 with h2 | h2
      · exact absurd h2 (by decide)
      · rcases List.mem_append.1 h2 with h3 | h3
        · exact hs h3
        · rcases List.mem_cons.1 h3 with h4 | h4
          · exact absurd h4 (by decide)
          · rcases List.mem_append.1 h4 with h5 | h5
            · exact (allPlain_durationString _ _ h5).2 rfl
            · revert h5
              decide
  · intro h
    rw [h] at hblank
    cases hblank
  · intro h
    rw [h] at hblank
    revert hblank
    decide
  · intro h
    rw [h] at hblank
    revert hblank
    decide

/-- The shape of the result for a qualifying activity whose sport label has
no path separator:
`<year>/<RFC 3339 local time> <sport> <rounded duration>.fit`. -/
theorem nameActivityFile_of_qualifying (env : Env) (activity : FileActivity) (s : MesgSport)
    (ht : activity.Activity.Type_ = env.ActivityManual) (hs : activity.Sports = [s])
    (hl : '/' ∉ (env.sportString s.Sport).toList) :
    nameActivityFile env activity =
      (String.mk (activity.Activity.Timestamp.FormatYear ++ '/' ::
        activityName env activity.Activity.Timestamp (env.sportString s.Sport).toList
          (timerDuration activity)), none) := by
  obtain ⟨mesg, sports⟩ := activity
  simp only at ht hs
  subst hs
  unfold nameActivityFile
  rw [if_neg (by simpa using ht), dif_neg (by simp)]
  have key := join_two_proper _ _ (properElem_appendInt mesg.Timestamp.Year 4)
    (properElem_activityName env mesg.Timestamp _ (timerDuration ⟨mesg, [s]⟩) hl)
  exact congrArg (fun l => (String.mk l, (none : Option String))) key

/-! ## `parseFitActivity` and the per-file step -/

theorem decodeLoop_second_group (path : String) (g : Group) (gs : List Group) (i : Nat)
    (file : Option FileActivity) (hi : 0 < i) :
    decodeLoop path (g :: gs) i file = Outcome.panic "not handled" := by
  unfold decodeLoop
  rw [if_pos hi]

theorem parseFitActivity_two_groups (env : Env) (w : World) (path : String) (bytes : List Nat)
    (a : FileActivity) (g : Group) (rest : List Group)
    (hopen : w.nodes path = some (Node.file bytes))
    (hint : (env.decode bytes).integrityErr = none)
    (hgroups : (env.decode bytes).groups = Group.activity a :: g :: rest) :
    parseFitActivity env w path = Outcome.panic "not handled" := by
  unfold parseFitActivity
  simp only [hopen, hint, hgroups]
  unfold decodeLoop
  rw [if_neg (by decide)]
  exact decodeLoop_second_group path g rest 1 (some a) (by decide)

theorem Clean_ne_nil (path : List Char) : Clean path ≠ [] := by
  unfold Clean
  dsimp only
  split_ifs <;> first | exact List.cons_ne_nil _ _ | assumption

theorem Join_ne_nil_of_snd (y n : List Char) (hn : n ≠ []) : Join [y, n] ≠ [] := by
  unfold Join
  by_cases hy : y = []
  · subst hy
    have : List.dropWhile (fun e => decide (e = [])) [[], n] = [n] := by
      simp [List.dropWhile, hn]
    rw [this]
    exact Clean_ne_nil _
  · have : List.dropWhile (fun e => decide (e = [])) [y, n] = [y, n] := by
      simp [List.dropWhile, hy]
    rw [this]
    exact Clean_ne_nil _

theorem activityName_ne_nil (env : Env) (ts : Time) (sport : List Char) (dur : Int) :
    activityName env ts sport dur ≠ [] := by
  unfold activityName
  intro h
  have := (List.append_eq_nil.1 h).2
  cases this

theorem decodeLoop_not_nil_nil (path : String) (gs : List Group) (i : Nat)
    (file : Option FileActivity) : decodeLoop path gs i file ≠ Outcome.ret (none, none) := by
  induction gs generalizing i file with
  | nil =>
    cases file with
    | none =>
      unfold decodeLoop
      intro h
      cases h
    | some a =>
      unfold decodeLoop
      intro h
      cases h
  | cons g gs ih =>
    unfold decodeLoop
    split
    · intro h
      cases h
    · cases g with
      | decodeErr msg =>
        intro h
        cases h
      | activity a => exact ih _ _
      | other =>
        intro h
        cases h

/-- `parseFitActivity` never returns a nil activity together with a nil
error. -/
theorem parseFitActivity_not_nil_nil (env : Env) (w : World) (path : String) :
    parseFitActivity env w path ≠ Outcome.ret (none, none) := by
  unfold parseFitActivity
  split
  · intro h
    cases h
  · intro h
    cases h
  · split
    · intro h
      cases h
    · exact decodeLoop_not_nil_nil _ _ _ _

theorem println_nodes (w : World) (line : String) : (w.println line).nodes = w.nodes := rfl

theorem osCreate_ok (w w1 : World) (dst : String) (h : osCreate w dst = (w1, none)) :
    w1 = w.set dst (Node.file []) := by
  unfold osCreate at h
  split at h
  · cases h
  · split at h
    · cases h
      rfl
    · cases h
    · cases h

/-- When `src` and `dst` are different paths and `copyFile` returns no error,
`dst` holds the bytes of `src` and `src` is unchanged. -/
theorem copyFile_of_ne (w w1 : World) (src dst : String) (hne : src ≠ dst)
    (h : copyFile w src dst = (w1, none)) :
    ∃ bytes, w.nodes src = some (Node.file bytes) ∧ w1.nodes dst = some (Node.file bytes) ∧
      w1.nodes src = some (Node.file bytes) := by
  unfold copyFile at h
  cases hs : w.nodes src with
  | none =>
    rw [hs] at h
    cases h
  | some n =>
    rw [hs] at h
    cases hc : osCreate w dst with
    | mk w2 e2 =>
      rw [hc] at h
      cases e2 with
      | some e =>
        cases h
      | none =>
        have hw2 := osCreate_ok w w2 dst hc
        subst hw2
        have hsrc : (w.set dst (Node.file [])).nodes src = some n := by
          simp [World.set, hne, hs]
        simp only [hsrc] at h
        cases n with
        | dir => cases h
        | file bytes =>
          cases h
          exact ⟨bytes, rfl, by simp [World.set], by simp [World.set, hne, hs]⟩

/-! ## The calendar -/

theorem cut100 (doe : Int) (h0 : 0 ≤ doe) (h1 : doe < 146097) :
    0 ≤ doe / 36524 - doe / 36524 / 4 ∧ doe / 36524 - doe / 36524 / 4 ≤ 3 ∧
    0 ≤ doe - 36524 * (doe / 36524 - doe / 36524 / 4) ∧
    doe - 36524 * (doe / 36524 - doe / 36524 / 4) ≤ 36524 := by
  omega

theorem cut1 (d3 : Int) (h0 : 0 ≤ d3) (h1 : d3 < 1461) :
    0 ≤ d3 / 365 - d3 / 365 / 4 ∧ d3 / 365 - d3 / 365 / 4 ≤ 3 ∧
    0 ≤ d3 - 365 * (d3 / 365 - d3 / 365 / 4) ∧
    d3 - 365 * (d3 / 365 - d3 / 365 / 4) ≤ 365 := by
  omega

theorem civil_decomp (z : Int) :
    ∃ era n100 n4 n1 doy mp : Int,
      0 ≤ n100 ∧ n100 ≤ 3 ∧ 0 ≤ n4 ∧ n4 ≤ 24 ∧ 0 ≤ n1 ∧ n1 ≤ 3 ∧ 0 ≤ doy ∧ doy ≤ 365 ∧
      0 ≤ mp ∧ mp ≤ 11 ∧ 153 * mp ≤ 5 * doy + 2 ∧ 5 * doy + 2 < 153 * mp + 153 ∧
      z + 719468 = 146097 * era + 36524 * n100 + 1461 * n4 + 365 * n1 + doy ∧
      civilFromDays z =
        (400 * era + 100 * n100 + 4 * n4 + n1 + (if mp < 10 then 0 else 1),
          if mp < 10 then mp + 3 else mp - 9, doy - (153 * mp + 2) / 5 + 1) := by
  obtain ⟨doe, hdoe⟩ : ∃ doe, doe = (z + 719468) % 146097 := ⟨_, rfl⟩
  obtain ⟨era, hera⟩ : ∃ era, era = (z + 719468) / 146097 := ⟨_, rfl⟩
  have hd0 : 0 ≤ doe := by omega
  have hd1 : doe < 146097 := by omega
  have hz : z + 719468 = 146097 * era + doe := by omega
  obtain ⟨n100, hn100⟩ : ∃ n, n = doe / 36524 - doe / 36524 / 4 := ⟨_, rfl⟩
  have c100 := cut100 doe hd0 hd1
  rw [← hn100] at c100
  obtain ⟨d2, hd2⟩ : ∃ d, d = doe - 36524 * n100 := ⟨_, rfl⟩
  rw [← hd2] at c100
  obtain ⟨n4, hn4⟩ : ∃ n, n = d2 / 1461 := ⟨_, rfl⟩
  obtain ⟨d3, hd3⟩ : ∃ d, d = d2 % 1461 := ⟨_, rfl⟩
  have h4 : 0 ≤ n4 ∧ n4 ≤ 24 ∧ 0 ≤ d3 ∧ d3 < 1461 ∧ d2 = 1461 * n4 + d3 := by omega
  obtain ⟨n1, hn1⟩ : ∃ n, n = d3 / 365 - d3 / 365 / 4 := ⟨_, rfl⟩
  have c1 := cut1 d3 h4.2.2.1 h4.2.2.2.1
  rw [← hn1] at c1
  obtain ⟨doy, hdoy⟩ : ∃ d, d = d3 - 365 * n1 := ⟨_, rfl⟩
  rw [← hdoy] at c1
  obtain ⟨mp, hmp⟩ : ∃ m, m = (5 * doy + 2) / 153 := ⟨_, rfl⟩
  have hm : 0 ≤ mp ∧ mp ≤ 11 ∧ 153 * mp ≤ 5 * doy + 2 ∧ 5 * doy + 2 < 153 * mp + 153 := by
    omega
  refine ⟨era, n100, n4, n1, doy, mp, c100.1, c100.2.1, h4.1, h4.2.1, c1.1, c1.2.1, c1.2.2.1,
    c1.2.2.2, hm.1, hm.2.1, hm.2.2.1, hm.2.2.2, by omega, ?_⟩
  unfold civilFromDays
  simp only [← hdoe, ← hera, ← hn100, ← hd2, ← hn4, ← hd3, ← hn1, ← hdoy, ← hmp]
  have hif : (if (if mp < 10 then mp + 3 else mp - 9) ≤ 2 then (1 : Int) else 0) =
      if mp < 10 then 0 else 1 := by
    split_ifs <;> omega
  rw [hif]

theorem civilFromDays_inj (z1 z2 : Int) (h : civilFromDays z1 = civilFromDays z2) : z1 = z2 := by
  obtain ⟨e1, a1, b1, c1, d1, m1, ha0, ha1, hb0, hb1, hc0, hc1, hd0, hd1, hm0, hm1, hl, hu, hz, hc⟩ :=
    civil_decomp z1
  obtain ⟨e2, a2, b2, c2, d2, m2, ha0', ha1', hb0', hb1', hc0', hc1', hd0', hd1', hm0', hm1', hl',
    hu', hz', hc'⟩ := civil_decomp z2
  rw [hc, hc'] at h
  simp only [Prod.mk.injEq] at h
  obtain ⟨hy, hm, hd⟩ := h
  have hmm : m1 = m2 := by
    split_ifs at hm <;> omega
  subst hmm
  have hdd : d1 = d2 := by omega
  subst hdd
  have hyy : 400 * e1 + 100 * a1 + 4 * b1 + c1 = 400 * e2 + 100 * a2 + 4 * b2 + c2 := by
    split_ifs at hy <;> omega
  clear hy hm hd hc hc'
  have he : e1 = e2 := by omega
  subst he
  have ha : a1 = a2 := by omega
  subst ha
  have hb : b1 = b2 := by omega
  subst hb
  omega

theorem civil_month_day_bounds (z : Int) :
    1 ≤ (civilFromDays z).2.1 ∧ (civilFromDays z).2.1 ≤ 12 ∧
    1 ≤ (civilFromDays z).2.2 ∧ (civilFromDays z).2.2 ≤ 31 := by
  obtain ⟨e, a, b, c, d, m, _, _, _, _, _, _, hd0, hd1, hm0, hm1, hl, hu, _, hc⟩ :=
    civil_decomp z
  rw [hc]
  dsimp only
  split_ifs <;> omega

/-- A time whose wall clock reads 2023-06-01T10:00:00 is printed as such,
followed by its zone. -/
theorem formatRFC3339_example (t : Time) (h : t.abs = 1685613600) :
    t.FormatRFC3339 = "2023-06-01T10:00:00".toList ++ formatZone t.offset := by
  have hd : civilFromDays (1685613600 / 86400) = (2023, 6, 1) := by decide
  have hc : ((1685613600 : Int) % 86400 / 3600, (1685613600 : Int) % 86400 % 3600 / 60,
      (1685613600 : Int) % 86400 % 60) = (10, 0, 0) := by decide
  unfold Time.FormatRFC3339 Time.Date Time.Clock
  simp only [h, hd, hc]
  rfl

/-- A time within a day of 2023-06-01T10:00:00 lies in the year 2023. -/
theorem year_example (t : Time) (h0 : 1685613600 - 86400 ≤ t.abs)
    (h1 : t.abs ≤ 1685613600 + 86400) : t.FormatYear = "2023".toList := by
  obtain ⟨d, hd⟩ : ∃ d, d = t.abs / 86400 := ⟨_, rfl⟩
  have hlo : 19508 ≤ d := by omega
  have hhi : d ≤ 19510 := by omega
  unfold Time.FormatYear Time.Year Time.Date
  rw [← hd]
  interval_cases d <;> decide

/-! ## Splitting rendered text at its separators -/

theorem split_at_first_not {P : Char → Prop} {a a1 x x1 : List Char} {c c1 : Char}
    (ha : ∀ e ∈ a, P e) (ha1 : ∀ e ∈ a1, P e) (hc : ¬ P c) (hc1 : ¬ P c1)
    (h : a ++ c :: x = a1 ++ c1 :: x1) : a = a1 ∧ c = c1 ∧ x = x1 := by
  induction a generalizing a1 with
  | nil =>
    cases a1 with
    | nil =>
      simp only [List.nil_append, List.cons.injEq] at h
      exact ⟨rfl, h.1, h.2⟩
    | cons e es =>
      simp only [List.nil_append, List.cons_append, List.cons.injEq] at h
      exact absurd (h.1 ▸ ha1 e (List.mem_cons_self _ _)) hc
  | cons d ds ih =>
    cases a1 with
    | nil =>
      simp only [List.nil_append, List.cons_append, List.cons.injEq] at h
      exact absurd (h.1 ▸ ha d (List.mem_cons_self _ _)) hc1
    | cons e es =>
      simp only [List.cons_append, List.cons.injEq] at h
      obtain ⟨h1, h2, h3⟩ := ih (fun e he => ha e (List.mem_cons_of_mem _ he))
        (fun e he => ha1 e (List.mem_cons_of_mem _ he)) h.2
      exact ⟨by rw [h.1, h1], h2, h3⟩

theorem split_at_first {a a1 x x1 : List Char} (c : Char) (ha : c ∉ a) (ha1 : c ∉ a1)
    (h : a ++ c :: x = a1 ++ c :: x1) : a = a1 ∧ x = x1 := by
  have := split_at_first_not (P := fun e => e ≠ c) (fun e he hec => ha (hec ▸ he))
    (fun e he hec => ha1 (hec ▸ he)) (fun h => h rfl) (fun h => h rfl) h
  exact ⟨this.1, this.2.2⟩

theorem split_at_last {a a1 x x1 : List Char} (c : Char) (hx : c ∉ x) (hx1 : c ∉ x1)
    (h : a ++ c :: x = a1 ++ c :: x1) : a = a1 ∧ x = x1 := by
  have hr := congrArg List.reverse h
  simp only [List.reverse_append, List.reverse_cons, List.append_assoc, List.singleton_append]
    at hr
  have := split_at_first c (by simpa using hx) (by simpa using hx1) hr
  exact ⟨List.reverse_injective this.2, List.reverse_injective this.1⟩

theorem decVal_append_singleton (l : List Char) (c : Char) :
    decVal (l ++ [c]) = 10 * decVal l + (c.toNat - 48) := by
  unfold decVal
  rw [List.foldl_append]
  rfl

theorem fmtIntLoop_acc (fuel v : Nat) (acc : List Char) :
    fmtIntLoop fuel v acc = fmtIntLoop fuel v [] ++ acc := by
  induction fuel generalizing v acc with
  | zero => rfl
  | succ n ih =>
    unfold fmtIntLoop
    split
    · rfl
    · rw [ih (v / 10) (digitChar v :: acc), ih (v / 10) [digitChar v]]
      simp

theorem decVal_fmtIntLoop (fuel v : Nat) (h : v ≤ fuel) : decVal (fmtIntLoop fuel v []) = v := by
  induction fuel generalizing v with
  | zero =>
    have : v = 0 := by omega
    subst this
    rfl
  | succ n ih =>
    unfold fmtIntLoop
    split
    · rename_i hv
      rw [hv]
      rfl
    · rw [fmtIntLoop_acc, decVal_append_singleton, ih (v / 10) (by omega), digitChar_toNat]
      omega

theorem decVal_fmtInt (v : Nat) : decVal (fmtInt v) = v := by
  unfold fmtInt
  split
  · rename_i hv
    rw [hv]
    rfl
  · exact decVal_fmtIntLoop v v (Nat.le_refl _)

theorem fmtInt_inj {v w : Nat} (h : fmtInt v = fmtInt w) : v = w := by
  rw [← decVal_fmtInt v, ← decVal_fmtInt w, h]

theorem decVal_zeros_append (n : Nat) (l : List Char) :
    decVal (List.replicate n '0' ++ l) = decVal l := by
  have hz : ∀ n, List.foldl (fun a c => 10 * a + (c.toNat - 48)) 0 (List.replicate n '0') = 0 := by
    intro n
    induction n with
    | zero => rfl
    | succ k ih =>
      rw [List.replicate_succ, List.foldl_cons]
      exact ih
  unfold decVal
  rw [List.foldl_append, hz]

theorem decVal_appendIntBody (x : Int) (width : Nat) :
    decVal (appendIntBody x width) = x.natAbs := by
  unfold appendIntBody
  rw [decVal_zeros_append, decVal_fmtInt]

theorem appendInt_of_nonneg (x : Int) (width : Nat) (h : 0 ≤ x) :
    appendInt x width = appendIntBody x width := by
  rw [appendInt_eq, if_neg (by omega)]

theorem appendInt_inj {x y : Int} {width : Nat} (h : appendInt x width = appendInt y width) :
    x = y := by
  have hminus : ¬ IsDigit '-' := by decide
  rw [appendInt_eq, appendInt_eq] at h
  by_cases hx : x < 0
  · by_cases hy : y < 0
    · rw [if_pos hx, if_pos hy] at h
      have hb := congrArg decVal (List.cons.inj h).2
      rw [decVal_appendIntBody, decVal_appendIntBody] at hb
      omega
    · rw [if_pos hx, if_neg hy] at h
      have : '-' ∈ appendIntBody y width := h ▸ List.mem_cons_self _ _
      exact absurd (allDigits_appendIntBody y width _ this) hminus
  · by_cases hy : y < 0
    · rw [if_neg hx, if_pos hy] at h
      have : '-' ∈ appendIntBody x width := h ▸ List.mem_cons_self _ _
      exact absurd (allDigits_appendIntBody x width _ this) hminus
    · rw [if_neg hx, if_neg hy] at h
      have hb := congrArg decVal h
      rw [decVal_appendIntBody, decVal_appendIntBody] at hb
      omega

/-- Two signed fields followed by a minus sign and equal as text are equal
field by field. -/
theorem appendInt_minus_split {x y : Int} {width : Nat} {r r1 : List Char}
    (h : appendInt x width ++ '-' :: r = appendInt y width ++ '-' :: r1) :
    x = y ∧ r = r1 := by
  have hminus : ¬ IsDigit '-' := by decide
  have hne := appendIntBody_ne_nil
  rw [appendInt_eq, appendInt_eq] at h
  by_cases hx : x < 0
  · by_cases hy : y < 0
    · rw [if_pos hx, if_pos hy] at h
      simp only [List.cons_append, List.cons.injEq, true_and] at h
      have := split_at_first_not (allDigits_appendIntBody x width)
        (allDigits_appendIntBody y width) hminus hminus h
      have hb := congrArg decVal this.1
      rw [decVal_appendIntBody, decVal_appendIntBody] at hb
      exact ⟨by omega, this.2.2⟩
    · rw [if_pos hx, if_neg hy] at h
      cases hb : appendIntBody y width with
      | nil => exact absurd hb (hne y width)
      | cons e es =>
        rw [hb] at h
        simp only [List.cons_append, List.cons.injEq] at h
        have : e ∈ appendIntBody y width := hb ▸ List.mem_cons_self _ _
        exact absurd (h.1 ▸ allDigits_appendIntBody y width _ this) hminus
  · by_cases hy : y < 0
    · rw [if_neg hx, if_pos hy] at h
      cases hb : appendIntBody x width with
      | nil => exact absurd hb (hne x width)
      | cons e es =>
        rw [hb] at h
        simp only [List.cons_append, List.cons.injEq] at h
        have : e ∈ appendIntBody x width := hb ▸ List.mem_cons_self _ _
        exact absurd (h.1 ▸ allDigits_appendIntBody x width _ this) hminus
    · rw [if_neg hx, if_neg hy] at h
      have := split_at_first_not (allDigits_appendIntBody x width)
        (allDigits_appendIntBody y width) hminus hminus h
      have hb := congrArg decVal this.1
      rw [decVal_appendIntBody, decVal_appendIntBody] at hb
      exact ⟨by omega, this.2.2⟩

/-- Two non-negative fields followed by a character that is no digit and equal
as text are equal field by field. -/
theorem appendInt_field_split {x y : Int} {width : Nat} {c c1 : Char} {r r1 : List Char}
    (hx : 0 ≤ x) (hy : 0 ≤ y) (hc : ¬ IsDigit c) (hc1 : ¬ IsDigit c1)
    (h : appendInt x width ++ c :: r = appendInt y width ++ c1 :: r1) :
    x = y ∧ c = c1 ∧ r = r1 := by
  rw [appendInt_of_nonneg x width hx, appendInt_of_nonneg y width hy] at h
  have := split_at_first_not (allDigits_appendIntBody x width)
    (allDigits_appendIntBody y width) hc hc1 h
  have hb := congrArg decVal this.1
  rw [decVal_appendIntBody, decVal_appendIntBody] at hb
  exact ⟨by omega, this.2⟩

/-! ## The zone, the timestamp and the duration are determined by their text -/

theorem formatZone_of_dvd (o : Int) (h : 60 ∣ o) :
    formatZone o =
      if o = 0 then ['Z']
      else if o < 0 then
        '-' :: (appendInt ((-o) / 60 / 60) 2 ++ ':' :: appendInt ((-o) / 60 % 60) 2)
      else '+' :: (appendInt (o / 60 / 60) 2 ++ ':' :: appendInt (o / 60 % 60) 2) := by
  have hz : goDiv o 60 = o / 60 := Int.tdiv_eq_ediv_of_dvd h
  unfold formatZone
  dsimp only
  rw [hz]
  by_cases h0 : o = 0
  · rw [if_pos h0, if_pos h0]
  · rw [if_neg h0, if_neg h0]
    by_cases hneg : o < 0
    · have hn : -(o / 60) = (-o) / 60 := by omega
      rw [if_pos (by omega), if_pos hneg, hn]
      have h1 : goDiv ((-o) / 60) 60 = (-o) / 60 / 60 :=
        Int.tdiv_eq_ediv (by omega) (by norm_num)
      have h2 : goRem ((-o) / 60) 60 = (-o) / 60 % 60 :=
        Int.tmod_eq_emod (by omega) (by norm_num)
      rw [h1, h2]
    · rw [if_neg (by omega), if_neg hneg]
      have h1 : goDiv (o / 60) 60 = o / 60 / 60 := Int.tdiv_eq_ediv (by omega) (by norm_num)
      have h2 : goRem (o / 60) 60 = o / 60 % 60 := Int.tmod_eq_emod (by omega) (by norm_num)
      rw [h1, h2]

theorem formatZone_head (o : Int) : ∃ c r, formatZone o = c :: r ∧ ¬ IsDigit c := by
  unfold formatZone
  dsimp only
  split
  · exact ⟨_, _, rfl, by decide⟩
  · split
    · exact ⟨_, _, rfl, by decide⟩
    · exact ⟨_, _, rfl, by decide⟩

theorem formatZone_inj {o1 o2 : Int} (h1 : 60 ∣ o1) (h2 : 60 ∣ o2)
    (h : formatZone o1 = formatZone o2) : o1 = o2 := by
  have hcolon : ¬ IsDigit ':' := by decide
  rw [formatZone_of_dvd o1 h1, formatZone_of_dvd o2 h2] at h
  by_cases z1 : o1 = 0
  · by_cases z2 : o2 = 0
    · rw [z1, z2]
    · rw [if_pos z1, if_neg z2] at h
      split at h <;> simp at h
  · by_cases z2 : o2 = 0
    · rw [if_neg z1, if_pos z2] at h
      split at h <;> simp at h
    · rw [if_neg z1, if_neg z2] at h
      by_cases n1 : o1 < 0
      · by_cases n2 : o2 < 0
        · rw [if_pos n1, if_pos n2] at h
          have hs := appendInt_field_split (by omega) (by omega) hcolon hcolon (List.cons.inj h).2
          have hm := appendInt_inj hs.2.2
          omega
        · rw [if_pos n1, if_neg n2] at h
          simp at h
      · by_cases n2 : o2 < 0
        · rw [if_neg n1, if_pos n2] at h
          simp at h
        · rw [if_neg n1, if_neg n2] at h
          have hs := appendInt_field_split (by omega) (by omega) hcolon hcolon (List.cons.inj h).2
          have hm := appendInt_inj hs.2.2
          omega

/-- Two times printed alike in zones whose offsets are whole minutes are the
same instant. -/
theorem formatRFC3339_inj (t1 t2 : Time) (h1 : 60 ∣ t1.offset) (h2 : 60 ∣ t2.offset)
    (h : t1.FormatRFC3339 = t2.FormatRFC3339) : t1.sec = t2.sec := by
  have hminus : ¬ IsDigit '-' := by decide
  have hT : ¬ IsDigit 'T' := by decide
  have hcolon : ¬ IsDigit ':' := by decide
  have b1 := civil_month_day_bounds (t1.abs / 86400)
  have b2 := civil_month_day_bounds (t2.abs / 86400)
  obtain ⟨c1, r1, hz1, hc1⟩ := formatZone_head t1.offset
  obtain ⟨c2, r2, hz2, hc2⟩ := formatZone_head t2.offset
  have hzone : formatZone t1.offset = formatZone t2.offset → t1.offset = t2.offset :=
    formatZone_inj h1 h2
  unfold Time.FormatRFC3339 at h
  rw [hz1, hz2] at h
  rw [hz1, hz2] at hzone
  have hdate : t1.Date = civilFromDays (t1.abs / 86400) := rfl
  have hdate2 : t2.Date = civilFromDays (t2.abs / 86400) := rfl
  have hclock : t1.Clock = (t1.abs % 86400 / 3600, t1.abs % 86400 % 3600 / 60,
    t1.abs % 86400 % 60) := rfl
  have hclock2 : t2.Clock = (t2.abs % 86400 / 3600, t2.abs % 86400 % 3600 / 60,
    t2.abs % 86400 % 60) := rfl
  obtain ⟨hY, h⟩ := appendInt_minus_split h
  obtain ⟨hM, -, h⟩ := appendInt_field_split (by rw [hdate]; omega) (by rw [hdate2]; omega)
    hminus hminus h
  obtain ⟨hD, -, h⟩ := appendInt_field_split (by rw [hdate]; omega) (by rw [hdate2]; omega)
    hT hT h
  obtain ⟨hh, -, h⟩ := appendInt_field_split (by rw [hclock]; dsimp only; omega)
    (by rw [hclock2]; dsimp only; omega) hcolon hcolon h
  obtain ⟨hm, -, h⟩ := appendInt_field_split (by rw [hclock]; dsimp only; omega)
    (by rw [hclock2]; dsimp only; omega) hcolon hcolon h
  obtain ⟨hs, hc, hr⟩ := appendInt_field_split (by rw [hclock]; dsimp only; omega)
    (by rw [hclock2]; dsimp only; omega) hc1 hc2 h
  have hoff := hzone (by rw [hc, hr])
  have hday : t1.abs / 86400 = t2.abs / 86400 := by
    apply civilFromDays_inj
    rw [← hdate, ← hdate2]
    exact Prod.ext hY (Prod.ext hM hD)
  rw [hclock, hclock2] at hh hm hs
  dsimp only at hh hm hs
  have habs : t1.abs = t2.abs := by omega
  unfold Time.abs at habs
  omega

theorem fmtFracLoop_of_dvd (prec v : Nat) (h : 10 ^ prec ∣ v) :
    fmtFracLoop prec v false [] = ([], false, v / 10 ^ prec) := by
  induction prec generalizing v with
  | zero => simp [fmtFracLoop]
  | succ p ih =>
    obtain ⟨q, hq⟩ := h
    have hv : v = 10 * (10 ^ p * q) := by rw [hq, pow_succ]; ring
    have hmod : v % 10 = 0 := by rw [hv]; exact Nat.mul_mod_right _ _
    have hdiv : v / 10 = 10 ^ p * q := by rw [hv]; exact Nat.mul_div_cancel_left _ (by norm_num)
    unfold fmtFracLoop
    simp only [hmod, ne_eq, not_true_eq_false, decide_False, Bool.or_false, Bool.false_eq_true,
      if_false]
    rw [ih (v / 10) ⟨q, hdiv⟩, Nat.div_div_eq_div_mul, pow_succ, Nat.mul_comm 10]

theorem fmtFrac_of_dvd (prec v : Nat) (h : 10 ^ prec ∣ v) :
    fmtFrac v prec = ([], v / 10 ^ prec) := by
  unfold fmtFrac
  rw [fmtFracLoop_of_dvd prec v h]
  rfl

theorem durationString_minutes (k : Nat) (hk : k < 2 ^ 26) :
    Duration.String ((k : Int) * 60000000000) = minutesString k := by
  have hu : toUint64 ((k : Int) * 60000000000) = 60000000000 * k := by
    have := toUint64_of_nonneg ((k : Int) * 60000000000) (by omega) (by omega)
    omega
  unfold Duration.String
  dsimp only
  have hneg : decide ((k : Int) * 60000000000 < 0) = false := by
    rw [decide_eq_false_iff_not]
    omega
  simp only [hneg, Bool.false_eq_true, if_false, hu]
  unfold minutesString
  by_cases h0 : k = 0
  · subst h0
    rfl
  · rw [if_neg (by omega), if_neg h0]
    have hfr : fmtFrac (60000000000 * k) 9 = ([], 60 * k) := by
      rw [fmtFrac_of_dvd 9 _ ⟨60 * k, by ring⟩]
      congr 1
      omega
    unfold formatLarge
    simp only [hfr]
    have h1 : 60 * k % 60 = 0 := by omega
    have h2 : 60 * k / 60 = k := by omega
    rw [h1, h2, if_pos (by omega)]
    rfl

theorem mem_minutesString_m (k : Nat) (h : k ≠ 0) : 'm' ∈ minutesString k := by
  unfold minutesString
  rw [if_neg h]
  split <;> simp

theorem minutesString_inj {k1 k2 : Nat} (h : minutesString k1 = minutesString k2) : k1 = k2 := by
  have hh : ¬ IsDigit 'h' := by decide
  have hm : ¬ IsDigit 'm' := by decide
  by_cases z1 : k1 = 0
  · by_cases z2 : k2 = 0
    · rw [z1, z2]
    · have := mem_minutesString_m k2 z2
      rw [← h, z1] at this
      exact absurd this (by decide)
  · by_cases z2 : k2 = 0
    · have := mem_minutesString_m k1 z1
      rw [h, z2] at this
      exact absurd this (by decide)
    · unfold minutesString at h
      rw [if_neg z1, if_neg z2] at h
      by_cases l1 : k1 / 60 > 0
      · by_cases l2 : k2 / 60 > 0
        · rw [if_pos l1, if_pos l2] at h
          obtain ⟨a, -, b⟩ := split_at_first_not (allDigits_fmtInt _) (allDigits_fmtInt _) hh hh h
          obtain ⟨c, -, -⟩ := split_at_first_not (allDigits_fmtInt _) (allDigits_fmtInt _) hm hm b
          have := fmtInt_inj a
          have := fmtInt_inj c
          omega
        · rw [if_pos l1, if_neg l2] at h
          obtain ⟨-, b, -⟩ := split_at_first_not (allDigits_fmtInt _) (allDigits_fmtInt _) hh hm h
          exact absurd b (by decide)
      · by_cases l2 : k2 / 60 > 0
        · rw [if_neg l1, if_pos l2] at h
          obtain ⟨-, b, -⟩ := split_at_first_not (allDigits_fmtInt _) (allDigits_fmtInt _) hm hh h
          exact absurd b (by decide)
        · rw [if_neg l1, if_neg l2] at h
          obtain ⟨c, -, -⟩ := split_at_first_not (allDigits_fmtInt _) (allDigits_fmtInt _) hm hm h
          have := fmtInt_inj c
          omega

/-- The rounded timer duration is a whole number of minutes. -/
theorem round_timerDuration (activity : FileActivity) :
    ∃ k : Nat, k < 2 ^ 26 ∧
      Duration.Round (timerDuration activity) Minute = (k : Int) * 60000000000 := by
  have hlt : activity.Activity.TotalTimerTime % 2 ^ 32 < 2 ^ 32 := Nat.mod_lt _ (by norm_num)
  unfold timerDuration
  rw [Millisecond_eq]
  generalize activity.Activity.TotalTimerTime % 2 ^ 32 = t at hlt
  rw [wrap64_of_range _ (by omega) (by omega)]
  rw [round_minute_of_nonneg _ (by omega) (by omega)]
  split
  · refine ⟨((t : Int) * 1000000 / 60000000000).toNat, ?_, ?_⟩
    · omega
    · rw [Int.toNat_of_nonneg (by omega)]
      omega
  · refine ⟨((t : Int) * 1000000 / 60000000000 + 1).toNat, ?_, ?_⟩
    · omega
    · rw [Int.toNat_of_nonneg (by omega)]
      omega

/-- Equal printed rounded durations come from equal rounded durations. -/
theorem roundedDurationString_inj (a b : FileActivity)
    (h : Duration.String (Duration.Round (timerDuration a) Minute) =
      Duration.String (Duration.Round (timerDuration b) Minute)) :
    Duration.Round (timerDuration a) Minute = Duration.Round (timerDuration b) Minute := by
  obtain ⟨k1, hk1, e1⟩ := round_timerDuration a
  obtain ⟨k2, hk2, e2⟩ := round_timerDuration b
  rw [e1, e2, durationString_minutes k1 hk1, durationString_minutes k2 hk2] at h
  rw [e1, e2, minutesString_inj h]

/-! ## Claims -/

/-- C1: `nameActivityFile` returns no error exactly when the activity type is
the manual sentinel and there is exactly one sport message; it then returns a
non-empty path, and in every other case it returns an error together with the
empty path. -/
theorem nameActivityFile_succeeds_iff (env : Env) (activity : FileActivity) :
    ((nameActivityFile env activity).2 = none ↔
      activity.Activity.Type_ = env.ActivityManual ∧ activity.Sports.length = 1) ∧
    ((nameActivityFile env activity).2 = none → (nameActivityFile env activity).1 ≠ "") ∧
    ((nameActivityFile env activity).2 ≠ none → (nameActivityFile env activity).1 = "") := by
  unfold nameActivityFile
  by_cases ht : activity.Activity.Type_ = env.ActivityManual
  · by_cases hl : activity.Sports.length = 1
    · rw [if_neg (by simpa using ht), dif_neg (by simpa using hl)]
      refine ⟨by simp [ht, hl], ?_, by simp⟩
      intro _ h
      have h2 := congrArg String.data h
      exact Join_ne_nil_of_snd _ _ (activityName_ne_nil _ _ _ _) h2
    · rw [if_neg (by simpa using ht), dif_pos hl]
      simp [hl]
  · rw [if_pos ht]
    simp [ht]

/-- C10: for a `TotalTimerTime` in the unsigned 32-bit range the product with
`time.Millisecond` does not wrap, and the duration put in the name is a whole
number of minutes at most 30,000 ms away from the timer time. -/
theorem timer_rounds_to_nearest_minute (activity : FileActivity)
    (h : activity.Activity.TotalTimerTime < 2 ^ 32) :
    timerDuration activity = (activity.Activity.TotalTimerTime : Int) * Millisecond ∧
    (activity.Activity.TotalTimerTime : Int) * Millisecond < 2 ^ 63 ∧
    ∃ k : Int, Duration.Round (timerDuration activity) Minute = k * (60000 * Millisecond) ∧
      -30000 ≤ k * 60000 - (activity.Activity.TotalTimerTime : Int) ∧
      k * 60000 - (activity.Activity.TotalTimerTime : Int) ≤ 30000 := by
  have hd := timerDuration_eq activity h
  rw [hd, Millisecond_eq]
  refine ⟨rfl, by omega, ?_⟩
  rw [round_minute_of_nonneg _ (by omega) (by omega)]
  generalize (activity.Activity.TotalTimerTime : Int) = t at *
  split
  · exact ⟨t / 60000, by omega, by omega, by omega⟩
  · exact ⟨t / 60000 + 1, by omega, by omega, by omega⟩

/-- C10, at 90 minutes: no wrap, and the rounded duration is 90 minutes. -/
theorem timer_rounds_to_nearest_minute_witness :
    timerDuration (exampleActivity 1685606400 5400000) = (5400000 : Int) * Millisecond ∧
    (5400000 : Int) * Millisecond < 2 ^ 63 ∧
    ∃ k : Int, Duration.Round (timerDuration (exampleActivity 1685606400 5400000)) Minute =
        k * (60000 * Millisecond) ∧
      -30000 ≤ k * 60000 - (5400000 : Int) ∧ k * 60000 - (5400000 : Int) ≤ 30000 :=
  timer_rounds_to_nearest_minute (exampleActivity 1685606400 5400000) (by decide)

/-- C6, as stated, fails: on a file whose decoder announces a second record
group after a first decoded activity, `parseFitActivity` does not return an
error; it panics. -/
theorem second_record_group_not_an_error :
    parseFitActivity
        (exampleEnv UTC ⟨none, [Group.activity (exampleActivity 1685606400 5400000),
          Group.activity (exampleActivity 1685606400 5400000)]⟩)
        exampleWorld "in/a.fit" = Outcome.panic "not handled" ∧
    ¬ ∃ r, parseFitActivity
        (exampleEnv UTC ⟨none, [Group.activity (exampleActivity 1685606400 5400000),
          Group.activity (exampleActivity 1685606400 5400000)]⟩)
        exampleWorld "in/a.fit" = Outcome.ret r := by
  have h : parseFitActivity
        (exampleEnv UTC ⟨none, [Group.activity (exampleActivity 1685606400 5400000),
          Group.activity (exampleActivity 1685606400 5400000)]⟩)
        exampleWorld "in/a.fit" = Outcome.panic "not handled" :=
    parseFitActivity_two_groups _ _ _ [1, 2, 3] _ _ [] (by decide) rfl rfl
  refine ⟨h, ?_⟩
  rintro ⟨r, hr⟩
  rw [h] at hr
  cases hr


/-- C6, amended: when the integrity check passes and the decoder announces a
second record group after a first decoded activity, `parseFitActivity` panics
with "not handled"; it returns neither an activity nor an error. -/
theorem parseFitActivity_second_group_panics (env : Env) (w : World) (path : String)
    (bytes : List Nat) (a : FileActivity) (g : Group) (rest : List Group)
    (hopen : w.nodes path = some (Node.file bytes))
    (hint : (env.decode bytes).integrityErr = none)
    (hgroups : (env.decode bytes).groups = Group.activity a :: g :: rest) :
    parseFitActivity env w path = Outcome.panic "not handled" :=
  parseFitActivity_two_groups env w path bytes a g rest hopen hint hgroups

/-- C6, amended, on `in/a.fit` with an activity followed by a group of
another kind. -/
theorem parseFitActivity_second_group_panics_witness :
    parseFitActivity
        (exampleEnv UTC ⟨none, [Group.activity (exampleActivity 1685606400 5400000),
          Group.other]⟩)
        exampleWorld "in/a.fit" = Outcome.panic "not handled" :=
  parseFitActivity_second_group_panics
    (exampleEnv UTC ⟨none, [Group.activity (exampleActivity 1685606400 5400000), Group.other]⟩)
    exampleWorld "in/a.fit" [1, 2, 3] (exampleActivity 1685606400 5400000) Group.other []
    (by decide) rfl rfl

set_option maxRecDepth 100000 in
/-- C7, the code at the failing input: copying a file onto itself returns no
error and leaves the file empty, although it held three bytes before the call.
The per-file step does this to an archived file when the output directory lies
inside the input tree. -/
theorem copyFile_onto_itself_truncates :
    exampleWorld.nodes "in/a.fit" = some (Node.file [1, 2, 3]) ∧
    (copyFile exampleWorld "in/a.fit" "in/a.fit").2 = none ∧
    (copyFile exampleWorld "in/a.fit" "in/a.fit").1.nodes "in/a.fit" = some (Node.file []) ∧
    archivedWorld.nodes "out/2023/2023-06-01T08:00:00Z running 1h30m0s.fit" =
      some (Node.file [1, 2, 3]) ∧
    ∃ w1, walkFn (exampleEnv UTC (oneActivity (exampleActivity 1685606400 5400000))) "out"
        archivedWorld "out/2023/2023-06-01T08:00:00Z running 1h30m0s.fit" ⟨true⟩ none =
          Outcome.ret (w1, none) ∧
      w1.nodes "out/2023/2023-06-01T08:00:00Z running 1h30m0s.fit" = some (Node.file []) :=
  ⟨by decide, by decide, by decide, by decide, _, rfl, by decide⟩

set_option maxRecDepth 100000 in
/-- C5, as stated, fails: with `out/2023` a regular file the copy of the
qualifying file `in/a.fit` fails and the walk function returns that error. -/
theorem walkFn_returns_copy_error :
    ∃ w1, walkFn (exampleEnv UTC (oneActivity (exampleActivity 1685606400 5400000))) "out"
      blockedWorld "in/a.fit" ⟨true⟩ none =
        Outcome.ret (w1,
          some "open out/2023/2023-06-01T08:00:00Z running 1h30m0s.fit: not a directory") :=
  ⟨_, rfl⟩

/-- C5, amended: the walk function returns nil for a skipped entry and for
every failure of opening, integrity check, decoding and qualification; for a
qualifying file it returns what `copyFile` returns, so a failed copy is handed
to the walk; a panic of `parseFitActivity` is not caught. -/
theorem walkFn_containment (env : Env) (outDir : String) (w : World) (path : String)
    (info : FileInfo) :
    ((info.isRegular = false ∨ hasFitSuffix path = false) →
      walkFn env outDir w path info none = Outcome.ret (w.println ("skipping " ++ path), none)) ∧
    (info.isRegular = true → hasFitSuffix path = true →
      (∀ r e, parseFitActivity env w path = Outcome.ret (r, some e) →
        walkFn env outDir w path info none =
          Outcome.ret (w.println ("not an activity file " ++ e), none)) ∧
      (∀ a p e, parseFitActivity env w path = Outcome.ret (some a, none) →
        nameActivityFile env a = (p, some e) →
        walkFn env outDir w path info none =
          Outcome.ret (w.println ("failed to name '" ++ path ++ "': " ++ e), none)) ∧
      (∀ a p, parseFitActivity env w path = Outcome.ret (some a, none) →
        nameActivityFile env a = (p, none) →
        walkFn env outDir w path info none =
          Outcome.ret (copyFile
            (MkdirAll w (String.mk (Dir (Join [outDir.toList, p.toList])))).1 path
            (String.mk (Join [outDir.toList, p.toList])))) ∧
      (∀ msg, parseFitActivity env w path = Outcome.panic msg →
        walkFn env outDir w path info none = Outcome.panic msg)) := by
  constructor
  · intro h
    unfold walkFn
    have : (!info.isRegular || !hasFitSuffix path) = true := by
      rcases h with h | h <;> simp [h]
    simp only [this, if_true]
  · intro hr hs
    have hc : (!info.isRegular || !hasFitSuffix path) = false := by simp [hr, hs]
    refine ⟨?_, ?_, ?_, ?_⟩
    · intro r e hp
      unfold walkFn
      simp only [hc, hp]
      simp
    · intro a p e hp hn
      unfold walkFn
      simp only [hc, hp, hn]
      simp
    · intro a p hp hn
      unfold walkFn
      simp only [hc, hp, hn]
      simp
    · intro msg hp
      unfold walkFn
      simp only [hc, hp]
      simp

set_option maxRecDepth 100000 in
/-- C5, amended, on the qualifying file `in/a.fit`: the walk function returns
the result of `copyFile`. -/
theorem walkFn_containment_witness :
    walkFn (exampleEnv UTC (oneActivity (exampleActivity 1685606400 5400000))) "out"
      blockedWorld "in/a.fit" ⟨true⟩ none =
      Outcome.ret (copyFile
        (MkdirAll blockedWorld (String.mk (Dir (Join ["out".toList,
          "2023/2023-06-01T08:00:00Z running 1h30m0s.fit".toList])))).1 "in/a.fit"
        (String.mk (Join ["out".toList,
          "2023/2023-06-01T08:00:00Z running 1h30m0s.fit".toList]))) :=
  ((walkFn_containment (exampleEnv UTC (oneActivity (exampleActivity 1685606400 5400000)))
    "out" blockedWorld "in/a.fit" ⟨true⟩).2 rfl (by decide)).2.2.1
    (exampleActivity 1685606400 5400000) "2023/2023-06-01T08:00:00Z running 1h30m0s.fit"
    rfl (by decide)

/-- C3, as stated, fails: an activity that is not manual and has two sport
messages is rejected for its type, not for its sport count. -/
theorem nameActivityFile_type_checked_first :
    exampleMultiSport.Sports.length = 2 ∧
    nameActivityFile (exampleEnv UTC ⟨none, []⟩) exampleMultiSport =
      ("", some "sport type not set manually") ∧
    (nameActivityFile (exampleEnv UTC ⟨none, []⟩) exampleMultiSport).2 ≠
      some "expected exactly 1 sport, got 2" := by
  decide

/-- C3, amended: for an activity whose sport count is not 1, `nameActivityFile`
returns an error, which is "expected exactly 1 sport, got n" when the type is
the manual sentinel and "sport type not set manually" otherwise; and the
per-file step on a file decoded to that activity returns with the file system
unchanged. -/
theorem nameActivityFile_sport_count (env : Env) (activity : FileActivity)
    (h : activity.Sports.length ≠ 1) :
    (activity.Activity.Type_ = env.ActivityManual →
      nameActivityFile env activity =
        ("", some (String.mk ("expected exactly 1 sport, got ".toList ++
          itoa activity.Sports.length)))) ∧
    (activity.Activity.Type_ ≠ env.ActivityManual →
      nameActivityFile env activity = ("", some "sport type not set manually")) ∧
    (∀ outDir w path info err,
      parseFitActivity env w path = Outcome.ret (some activity, none) →
      ∃ w1 e, walkFn env outDir w path info err = Outcome.ret (w1, e) ∧ w1.nodes = w.nodes) := by
  have hname : ∃ e, nameActivityFile env activity = ("", some e) := by
    unfold nameActivityFile
    by_cases ht : activity.Activity.Type_ = env.ActivityManual
    · rw [if_neg (by simpa using ht), dif_pos h]
      exact ⟨_, rfl⟩
    · rw [if_pos ht]
      exact ⟨_, rfl⟩
  refine ⟨?_, ?_, ?_⟩
  · intro ht
    unfold nameActivityFile
    rw [if_neg (by simpa using ht), dif_pos h]
  · intro ht
    unfold nameActivityFile
    rw [if_pos ht]
  · intro outDir w path info err hp
    obtain ⟨e, he⟩ := hname
    cases err with
    | some e0 => exact ⟨w, some e0, rfl, rfl⟩
    | none =>
      by_cases hc : (!info.isRegular || !hasFitSuffix path) = true
      · refine ⟨w.println ("skipping " ++ path), none, ?_, rfl⟩
        unfold walkFn
        simp only [hc, if_true]
      · refine ⟨w.println ("failed to name '" ++ path ++ "': " ++ e), none, ?_, rfl⟩
        unfold walkFn
        simp only [hc, hp, he]
        simp

/-- C3, amended, on a manual activity with two sport messages. -/
theorem nameActivityFile_sport_count_witness :
    nameActivityFile (exampleEnv UTC ⟨none, []⟩) exampleTwoSports =
      ("", some "expected exactly 1 sport, got 2") :=
  ((nameActivityFile_sport_count (exampleEnv UTC ⟨none, []⟩) exampleTwoSports
    (by decide)).1 rfl).trans (by decide)

/-- C2: for a qualifying activity whose sport label has no path separator the
result is `<year>/<RFC 3339 local time> <sport> <rounded duration>.fit`; and
for the sport "running", 5,400,000 ms and a timestamp, decoded in UTC, whose
local wall clock reads 2023-06-01T10:00:00 in a zone at most a day from UTC,
it is `2023/2023-06-01T10:00:00<offset> running 1h30m0s.fit`. -/
theorem nameActivityFile_format (env : Env) (activity : FileActivity) (s : MesgSport)
    (ht : activity.Activity.Type_ = env.ActivityManual) (hs : activity.Sports = [s])
    (hl : '/' ∉ (env.sportString s.Sport).toList) :
    nameActivityFile env activity =
      (String.mk (activity.Activity.Timestamp.FormatYear ++ '/' ::
        ((activity.Activity.Timestamp.In env.Local).FormatRFC3339 ++ ' ' ::
          ((env.sportString s.Sport).toList ++ ' ' ::
            (Duration.String (Duration.Round (timerDuration activity) Minute) ++
              ".fit".toList)))), none) ∧
    (env.sportString s.Sport = "running" →
      activity.Activity.TotalTimerTime = 5400000 →
      activity.Activity.Timestamp.sec + env.Local.lookup activity.Activity.Timestamp.sec =
        1685613600 →
      activity.Activity.Timestamp.offset = 0 →
      -86400 ≤ env.Local.lookup activity.Activity.Timestamp.sec →
      env.Local.lookup activity.Activity.Timestamp.sec ≤ 86400 →
      nameActivityFile env activity =
        (String.mk ("2023/2023-06-01T10:00:00".toList ++
          (formatZone (env.Local.lookup activity.Activity.Timestamp.sec) ++
            " running 1h30m0s.fit".toList)), none)) := by
  have key := nameActivityFile_of_qualifying env activity s ht hs hl
  refine ⟨key, ?_⟩
  intro hrun hdur hwall hutc hlo hhi
  have hstamp := formatRFC3339_example (activity.Activity.Timestamp.In env.Local) hwall
  have habs : activity.Activity.Timestamp.abs = activity.Activity.Timestamp.sec := by
    unfold Time.abs
    omega
  have hyear := year_example activity.Activity.Timestamp (by omega) (by omega)
  have hd : Duration.String (Duration.Round (timerDuration activity) Minute) =
      "1h30m0s".toList := by
    unfold timerDuration
    rw [hdur]
    decide
  rw [key]
  unfold activityName
  rw [hstamp, hyear, hd, hrun]
  rfl

set_option maxRecDepth 100000 in
/-- C2, in the zone UTC+2: the activity decoded at 08:00:00 UTC is named
`2023/2023-06-01T10:00:00+02:00 running 1h30m0s.fit`. -/
theorem nameActivityFile_format_witness :
    nameActivityFile (exampleEnv (FixedZone 7200) ⟨none, []⟩)
      (exampleActivity 1685606400 5400000) =
      ("2023/2023-06-01T10:00:00+02:00 running 1h30m0s.fit", none) :=
  ((nameActivityFile_format (exampleEnv (FixedZone 7200) ⟨none, []⟩)
    (exampleActivity 1685606400 5400000) ⟨1⟩ rfl rfl (by decide)).2 rfl rfl (by decide) rfl
    (by decide) (by decide)).trans (by decide)

set_option maxRecDepth 100000 in
/-- C4, as stated, fails: a qualifying activity of 30,000 ms gets the duration
"1m0s" in its name, not "0s". -/
theorem thirty_seconds_round_up :
    Duration.String (Duration.Round (timerDuration (exampleActivity 1685606400 30000)) Minute) ≠
      "0s".toList ∧
    nameActivityFile (exampleEnv UTC ⟨none, []⟩) (exampleActivity 1685606400 30000) =
      ("2023/2023-06-01T08:00:00Z running 1m0s.fit", none) := by
  decide

/-- C4, amended: for a qualifying activity with `TotalTimerTime` = 30,000 ms
the duration in the name is "1m0s": the half minute is rounded away from
zero. -/
theorem thirty_seconds_named_one_minute (env : Env) (activity : FileActivity) (s : MesgSport)
    (ht : activity.Activity.Type_ = env.ActivityManual) (hs : activity.Sports = [s])
    (hl : '/' ∉ (env.sportString s.Sport).toList)
    (h30 : activity.Activity.TotalTimerTime = 30000) :
    Duration.String (Duration.Round (timerDuration activity) Minute) = "1m0s".toList ∧
    nameActivityFile env activity =
      (String.mk (activity.Activity.Timestamp.FormatYear ++ '/' ::
        ((activity.Activity.Timestamp.In env.Local).FormatRFC3339 ++ ' ' ::
          ((env.sportString s.Sport).toList ++ " 1m0s.fit".toList))), none) := by
  have hd : Duration.String (Duration.Round (timerDuration activity) Minute) =
      "1m0s".toList := by
    unfold timerDuration
    rw [h30]
    decide
  refine ⟨hd, ?_⟩
  rw [nameActivityFile_of_qualifying env activity s ht hs hl]
  unfold activityName
  rw [hd]
  rfl

set_option maxRecDepth 100000 in
/-- C4, amended, on a running activity of 30,000 ms in the zone UTC. -/
theorem thirty_seconds_named_one_minute_witness :
    nameActivityFile (exampleEnv UTC ⟨none, []⟩) (exampleActivity 1685606400 30000) =
      ("2023/2023-06-01T08:00:00Z running 1m0s.fit", none) :=
  ((thirty_seconds_named_one_minute (exampleEnv UTC ⟨none, []⟩)
    (exampleActivity 1685606400 30000) ⟨1⟩ rfl rfl (by decide) rfl).2).trans (by decide)

set_option maxRecDepth 100000 in
/-- C9, the code at the failing input: for the timestamp 2023-12-31T23:30:00Z
and the local zone UTC+1 the file name starts with the local year 2024 while
the directory is the UTC year 2023. -/
theorem year_directory_is_not_local_year :
    nameActivityFile (exampleEnv (FixedZone 3600) ⟨none, []⟩)
      (exampleActivity 1704065400 3600000) =
      ("2023/2024-01-01T00:30:00+01:00 running 1h0m0s.fit", none) := by
  decide

set_option maxRecDepth 100000 in
/-- C8, as stated, fails: in a local zone whose offset drops by one second,
two qualifying activities that start one second apart, with the same sport and
duration, get the same path. -/
theorem distinct_instants_same_path :
    (exampleActivity 1685606399 5400000).Activity.Timestamp.sec ≠
      (exampleActivity 1685606400 5400000).Activity.Timestamp.sec ∧
    nameActivityFile (exampleEnv shiftedZone ⟨none, []⟩) (exampleActivity 1685606399 5400000) =
      ("2023/2023-06-01T09:00:00+01:00 running 1h30m0s.fit", none) ∧
    nameActivityFile (exampleEnv shiftedZone ⟨none, []⟩) (exampleActivity 1685606400 5400000) =
      ("2023/2023-06-01T09:00:00+01:00 running 1h30m0s.fit", none) := by
  decide

/-- C8, amended: for a fixed local zone and sport labels without a path
separator, two qualifying activities with the same timestamp, sport label and
rounded duration get the same path; and when the local offset at both
timestamps is a whole number of minutes, two with the same path have the same
instant, the same sport label (blanks in it included) and the same rounded
duration. -/
theorem nameActivityFile_injective (env : Env) (a b : FileActivity) (sa sb : MesgSport)
    (hta : a.Activity.Type_ = env.ActivityManual) (hsa : a.Sports = [sa])
    (htb : b.Activity.Type_ = env.ActivityManual) (hsb : b.Sports = [sb])
    (hla : '/' ∉ (env.sportString sa.Sport).toList)
    (hlb : '/' ∉ (env.sportString sb.Sport).toList) :
    (a.Activity.Timestamp = b.Activity.Timestamp →
      env.sportString sa.Sport = env.sportString sb.Sport →
      Duration.Round (timerDuration a) Minute = Duration.Round (timerDuration b) Minute →
      nameActivityFile env a = nameActivityFile env b) ∧
    (60 ∣ env.Local.lookup a.Activity.Timestamp.sec →
      60 ∣ env.Local.lookup b.Activity.Timestamp.sec →
      nameActivityFile env a = nameActivityFile env b →
      a.Activity.Timestamp.sec = b.Activity.Timestamp.sec ∧
      env.sportString sa.Sport = env.sportString sb.Sport ∧
      Duration.Round (timerDuration a) Minute = Duration.Round (timerDuration b) Minute) := by
  have ka := nameActivityFile_of_qualifying env a sa hta hsa hla
  have kb := nameActivityFile_of_qualifying env b sb htb hsb hlb
  constructor
  · intro hts hsp hd
    rw [ka, kb]
    unfold activityName
    rw [hts, hsp, hd]
  · intro hza hzb h
    rw [ka, kb] at h
    have hl := congrArg String.data (congrArg Prod.fst h)
    dsimp only at hl
    have hslash : ∀ t : Time, '/' ∉ t.FormatYear := fun t hm =>
      (allPlain_appendInt _ _ _ hm).2 rfl
    obtain ⟨-, hname⟩ := split_at_first '/' (hslash _) (hslash _) hl
    unfold activityName at hname
    have hblank : ∀ t : Time, ' ' ∉ t.FormatRFC3339 := fun t hm =>
      (allPlain_formatRFC3339 t _ hm).1 rfl
    obtain ⟨hstamp, hrest⟩ := split_at_first ' ' (hblank _) (hblank _) hname
    have hdur : ∀ d : Int, ' ' ∉ Duration.String d ++ ['.', 'f', 'i', 't'] := by
      intro d hm
      rcases List.mem_append.1 hm with h1 | h1
      · exact (allPlain_durationString d _ h1).1 rfl
      · exact absurd h1 (by decide)
    obtain ⟨hsport, htail⟩ := split_at_last ' ' (hdur _) (hdur _) hrest
    have hds := List.append_cancel_right htail
    refine ⟨?_, String.ext hsport, roundedDurationString_inj a b hds⟩
    exact formatRFC3339_inj (a.Activity.Timestamp.In env.Local)
      (b.Activity.Timestamp.In env.Local) hza hzb hstamp

/-- C8, amended, in the zone UTC+2: two running activities decoded at the same
second whose timer times round to the same minute get the same path, and two
decoded one second apart get different paths. -/
theorem nameActivityFile_injective_witness :
    nameActivityFile (exampleEnv (FixedZone 7200) ⟨none, []⟩)
        (exampleActivity 1685606400 5400000) =
      nameActivityFile (exampleEnv (FixedZone 7200) ⟨none, []⟩)
        (exampleActivity 1685606400 5400001) ∧
    nameActivityFile (exampleEnv (FixedZone 7200) ⟨none, []⟩)
        (exampleActivity 1685606399 5400000) ≠
      nameActivityFile (exampleEnv (FixedZone 7200) ⟨none, []⟩)
        (exampleActivity 1685606400 5400000) :=
  ⟨(nameActivityFile_injective (exampleEnv (FixedZone 7200) ⟨none, []⟩)
      (exampleActivity 1685606400 5400000) (exampleActivity 1685606400 5400001) ⟨1⟩ ⟨1⟩
      rfl rfl rfl rfl (by decide) (by decide)).1 rfl rfl (by decide),
    fun h => absurd ((nameActivityFile_injective (exampleEnv (FixedZone 7200) ⟨none, []⟩)
      (exampleActivity 1685606399 5400000) (exampleActivity 1685606400 5400000) ⟨1⟩ ⟨1⟩
      rfl rfl rfl rfl (by decide) (by decide)).2 ⟨120, rfl⟩ ⟨120, rfl⟩ h).1 (by decide)⟩

end Fitsort
